import Mathlib

/-!
# mongo-adonis: model/query-builder core, shallow embedding

Shallow embedding of the mongo-adonis object-document mapper core
(`src/querybuilder/query_builder.ts`, `src/model/base_model.ts`,
`src/model/decorators.ts`, `src/relations/*.ts`) together with proofs about
the frozen specification claims.

JavaScript values occurring in documents, filters and model attributes are
modelled by `MValue`.  JavaScript objects are association lists with unique
keys kept in insertion order; property assignment (`o[k] = v`) updates the
existing entry in place or appends a new one, exactly as JS object key
ordering behaves for string keys.

`undefined` is modelled by absence (`Option.none` at binding sites);
`null` is `MValue.vNull`.  The strict-inequality test `!==` used by
`isDirty` is modelled by structural inequality of `MValue`: this agrees
with JS on primitives; two structurally equal but distinct heap objects
would compare unequal in JS, a distinction none of the proved statements
depends on.
-/

/-- JavaScript/BSON values as used by the query builder and the models.
`vId` is a MongoDB ObjectId carrying its hex string, `vRegex` a native
JS regular expression (source and flags). -/
inductive MValue : Type where
  | vNull : MValue
  | vBool (b : Bool) : MValue
  | vInt (n : Int) : MValue
  | vStr (s : String) : MValue
  | vId (hex : String) : MValue
  | vRegex (source flags : String) : MValue
  | vArr (items : List MValue) : MValue
  | vObj (fields : List (String × MValue)) : MValue

/-- A JavaScript object: association list in insertion order, unique keys. -/
abbrev Obj : Type := List (String × MValue)

/-!
Structural (value) equality on `MValue`, used to model JS `===` on
primitives and deep value comparison where the source compares values.
-/

mutual

def MValue.beq : MValue → MValue → Bool
  | .vNull, .vNull => true
  | .vBool a, .vBool b => a == b
  | .vInt a, .vInt b => a == b
  | .vStr a, .vStr b => a == b
  | .vId a, .vId b => a == b
  | .vRegex s f, .vRegex t g => s == t && f == g
  | .vArr xs, .vArr ys => MValue.beqList xs ys
  | .vObj xs, .vObj ys => MValue.beqObj xs ys
  | _, _ => false

def MValue.beqList : List MValue → List MValue → Bool
  | [], [] => true
  | x :: xs, y :: ys => MValue.beq x y && MValue.beqList xs ys
  | _, _ => false

def MValue.beqObj :
    List (String × MValue) → List (String × MValue) → Bool
  | [], [] => true
  | (k, v) :: xs, (k', v') :: ys =>
    k == k' && MValue.beq v v' && MValue.beqObj xs ys
  | _, _ => false

end

instance : BEq MValue := ⟨MValue.beq⟩

namespace Obj

/-- Property read `o[k]`; `none` models `undefined`. -/
def get : Obj → String → Option MValue
  | [], _ => none
  | (k₀, v₀) :: rest, k => if k₀ == k then some v₀ else get rest k

/-- `Object.prototype.hasOwnProperty` / `Map.has`. -/
def hasKey (o : Obj) (k : String) : Bool :=
  (o.get k).isSome

/-- Property assignment `o[k] = v`: replace in place if the key exists,
append otherwise (JS string-key insertion order). -/
def set : Obj → String → MValue → Obj
  | [], k, v => [(k, v)]
  | (k₀, v₀) :: rest, k, v =>
    if k₀ == k then (k₀, v) :: rest else (k₀, v₀) :: set rest k v

/-- Object spread `{...a, ...b}`: assign every entry of `b` into `a`. -/
def spread (a b : Obj) : Obj :=
  b.foldl (fun acc e => acc.set e.1 e.2) a

end Obj

/-- JavaScript truthiness for the modelled values. -/
def MValue.truthy : MValue → Bool
  | .vNull => false
  | .vBool b => b
  | .vInt n => n != 0
  | .vStr s => s ≠ ""
  | .vId _ => true
  | .vRegex _ _ => true
  | .vArr _ => true
  | .vObj _ => true

/-- Truthiness of a possibly-`undefined` value (`undefined` is falsy). -/
def truthyOpt : Option MValue → Bool
  | none => false
  | some v => v.truthy

/-!
## Pure query-builder state (`MongoQueryBuilder`)

This is the observable state of a single `MongoQueryBuilder`
(`query_builder.ts`): `filter`, `sortOptions`, `projection`, `limitValue`,
`skipValue`.  Within one builder, in-place mutation of a nested operator
object and replacement of the entry produce the same observable filter, so
a pure representation is faithful for single-builder claims.  Reference
sharing between a builder and its `clone()` is modelled separately by the
heap embedding further below.
-/

structure MongoQueryBuilder : Type where
  filter : Obj := []
  sortOptions : Obj := []
  projection : Obj := []
  limitValue : Option Int := none
  skipValue : Option Int := none

namespace MongoQueryBuilder

/-- `where(key, value)` (two-argument overload, `value === undefined`
branch): `this.filter[key] = operatorOrValue`. -/
def whereKV (qb : MongoQueryBuilder) (key : String) (v : MValue) :
    MongoQueryBuilder :=
  { qb with filter := qb.filter.set key v }

/-- The merge branch of `where(key, operator, value)`: the existing
condition for `key` is an object, so the new operator is merged into it
(`=` still overwrites the whole entry). -/
def mergeOperator (fields : Obj) (operator : String) (v : MValue) :
    Option Obj :=
  match operator with
  | "=" => none
  | ">" => some (fields.set "$gt" v)
  | ">=" => some (fields.set "$gte" v)
  | "<" => some (fields.set "$lt" v)
  | "<=" => some (fields.set "$lte" v)
  | "!=" => some (fields.set "$ne" v)
  | "like" => some ((fields.set "$regex" v).set "$options" (.vStr "i"))
  | "in" => some (fields.set "$in" v)
  | "not in" => some (fields.set "$nin" v)
  | op => some (fields.set op v)

/-- The create branch of `where(key, operator, value)`: no existing object
condition for `key`, so a fresh condition is built. -/
def freshCondition (operator : String) (v : MValue) : MValue :=
  match operator with
  | "=" => v
  | ">" => .vObj [("$gt", v)]
  | ">=" => .vObj [("$gte", v)]
  | "<" => .vObj [("$lt", v)]
  | "<=" => .vObj [("$lte", v)]
  | "!=" => .vObj [("$ne", v)]
  | "like" => .vObj [("$regex", v), ("$options", .vStr "i")]
  | "in" => .vObj [("$in", v)]
  | "not in" => .vObj [("$nin", v)]
  | op => .vObj [(op, v)]

/-- `where(key, operator, value)` (three-argument overload).  The merge
branch is taken when `this.filter[key]` is truthy, of object type and not
an array; otherwise the create branch runs. -/
def whereOp (qb : MongoQueryBuilder) (key operator : String) (v : MValue) :
    MongoQueryBuilder :=
  match qb.filter.get key with
  | some (.vObj fields) =>
    match mergeOperator fields operator v with
    | some merged => { qb with filter := qb.filter.set key (.vObj merged) }
    | none => { qb with filter := qb.filter.set key v }
  | _ => { qb with filter := qb.filter.set key (freshCondition operator v) }

/-- `whereIn(key, values)` = `where(key, 'in', values)`. -/
def whereIn (qb : MongoQueryBuilder) (key : String) (values : List MValue) :
    MongoQueryBuilder :=
  qb.whereOp key "in" (.vArr values)

/-- `whereNotIn(key, values)` = `where(key, 'not in', values)`. -/
def whereNotIn (qb : MongoQueryBuilder) (key : String)
    (values : List MValue) : MongoQueryBuilder :=
  qb.whereOp key "not in" (.vArr values)

/-- `whereLike(key, value)` = `where(key, 'like', value)`. -/
def whereLike (qb : MongoQueryBuilder) (key : String) (v : MValue) :
    MongoQueryBuilder :=
  qb.whereOp key "like" v

/-- `whereNull(key)`: bare equality to null. -/
def whereNull (qb : MongoQueryBuilder) (key : String) : MongoQueryBuilder :=
  { qb with filter := qb.filter.set key .vNull }

/-- `whereNotNull(key)`. -/
def whereNotNull (qb : MongoQueryBuilder) (key : String) :
    MongoQueryBuilder :=
  { qb with filter := qb.filter.set key (.vObj [("$ne", .vNull)]) }

/-- `select(...fields)`: each field is added to the projection with
weight 1. -/
def select (qb : MongoQueryBuilder) (fields : List String) :
    MongoQueryBuilder :=
  { qb with
    projection := fields.foldl (fun p f => p.set f (.vInt 1)) qb.projection }

/-- `orderBy(field, direction)`. -/
def orderBy (qb : MongoQueryBuilder) (field : String) (direction : String) :
    MongoQueryBuilder :=
  { qb with
    sortOptions :=
      qb.sortOptions.set field (if direction == "asc" then .vInt 1 else .vInt (-1)) }

/-- `limit(value)`. -/
def limit (qb : MongoQueryBuilder) (v : Int) : MongoQueryBuilder :=
  { qb with limitValue := some v }

/-- `offset(value)`. -/
def offset (qb : MongoQueryBuilder) (v : Int) : MongoQueryBuilder :=
  { qb with skipValue := some v }

end MongoQueryBuilder

/-!
## Regex normalization (`processMongoQuery`, C6)

`processMongoQuery` walks a raw filter object and rewrites every native
regular expression it reaches into the store form
`{$regex: source, $options: flags}`: at `$and`/`$or` keys the (array)
value's items are re-processed as sub-queries, an object value whose
`$regex` member is a native regex is spread with `$regex`/`$options`
replaced, other object values are processed recursively, and all other
values (including plain arrays) are kept as they are.

`Object.entries` on a non-object argument is reproduced for arrays and
(one-character-string entry by entry) for strings; it yields nothing for
the remaining primitives, and a `null`/`undefined` query is mapped to the
empty object by the guard at the top of the function.
-/

/-- The `$options` value of the
`{...value, $regex: source, $options: flags || (value.$options || '')}`
rewrite: the regex's own flags if non-empty, else the object's truthy
`$options` member, else the empty string. -/
def regexOptionsFallback (flags : String) (fields : Obj) : MValue :=
  if flags ≠ "" then .vStr flags
  else
    match Obj.get fields "$options" with
    | some ov => if ov.truthy then ov else .vStr ""
    | none => .vStr ""

mutual

/-- Entry-wise body of `processMongoQuery` over `Object.entries`. -/
def processEntries : Obj → Obj
  | [] => []
  | (k, v) :: rest => (k, processValue k v) :: processEntries rest

/-- Per-entry dispatch of `processMongoQuery`: logical-operator keys map
their array items as sub-queries; other keys process the value.  (On a
non-array `$and`/`$or` value JavaScript would throw a `TypeError` from
`value.map`; that branch keeps the value, and the well-formedness
predicate used by the theorems excludes it.) -/
def processValue (k : String) (v : MValue) : MValue :=
  if k == "$and" || k == "$or" then
    match v with
    | .vArr items => .vArr (processItems items)
    | _ => v
  else processPlainValue v

/-- The non-logical-key branch of `processMongoQuery`: rewrite a native
regex, fix up an object whose `$regex` member is a native regex, recurse
into other objects, keep everything else (arrays included) as is. -/
def processPlainValue : MValue → MValue
  | .vRegex s f => .vObj [("$regex", .vStr s), ("$options", .vStr f)]
  | .vObj fields =>
    match Obj.get fields "$regex" with
    | some (.vRegex s f) =>
      .vObj ((Obj.set (Obj.set fields "$regex" (.vStr s)) "$options"
        (regexOptionsFallback f fields)))
    | _ => .vObj (processEntries fields)
  | v => v

/-- `value.map(item => this.processMongoQuery(item))` on an
`$and`/`$or` array. -/
def processItems : List MValue → List MValue
  | [] => []
  | x :: xs => .vObj (processMongoQuery x) :: processItems xs

/-- `Object.entries` of an array argument (index-keyed entries), with each
value processed under its numeric key. -/
def processIndexed (i : Nat) : List MValue → Obj
  | [] => []
  | x :: xs => (toString i, processPlainValue x) :: processIndexed (i + 1) xs

/-- `processMongoQuery(query)`: `null`/`undefined` yield the empty object;
an object is processed entry by entry; `Object.entries` of an array gives
index-keyed entries; of a string, character entries (single-character
strings are left unchanged by processing); of other primitives, nothing. -/
def processMongoQuery : MValue → Obj
  | .vNull => []
  | .vObj o => processEntries o
  | .vArr xs => processIndexed 0 xs
  | .vStr s => s.data.enum.map (fun p => (toString p.1, .vStr (String.singleton p.2)))
  | _ => []

end

/-!
### Spec-side store-native rewrite

`specRegexRewrite*` follows the spec's words for the store-native form: it
rewrites every native regular-expression value into the
`{$regex: source, $options: flags}` pair, uniformly through objects and
arrays; a native regex sitting as the value of a `$regex` key (the
caller mixing the store's pattern operator with a native pattern) is
written in place, the pattern's own flags taking precedence over an
existing `$options` member.  This is the comparison point for the C6
refinement claim.
-/

mutual

def specRewriteEntries : Obj → Obj
  | [] => []
  | (k, v) :: rest => (k, specRewriteValue v) :: specRewriteEntries rest

def specRewriteValue : MValue → MValue
  | .vRegex s f => .vObj [("$regex", .vStr s), ("$options", .vStr f)]
  | .vObj fields =>
    match Obj.get fields "$regex" with
    | some (.vRegex s f) =>
      .vObj ((Obj.set (Obj.set fields "$regex" (.vStr s)) "$options"
        (regexOptionsFallback f fields)))
    | _ => .vObj (specRewriteEntries fields)
  | .vArr xs => .vArr (specRewriteList xs)
  | v => v

def specRewriteList : List MValue → List MValue
  | [] => []
  | x :: xs => specRewriteValue x :: specRewriteList xs

end

/-! `regexFree*`: no native regular expression anywhere in the value. -/

mutual

def regexFreeValue : MValue → Bool
  | .vRegex _ _ => false
  | .vObj fields => regexFreeEntries fields
  | .vArr xs => regexFreeList xs
  | _ => true

def regexFreeEntries : Obj → Bool
  | [] => true
  | (_, v) :: rest => regexFreeValue v && regexFreeEntries rest

def regexFreeList : List MValue → Bool
  | [] => true
  | x :: xs => regexFreeValue x && regexFreeList xs

end

/-! `shape*`: the shape constraint under which `processMongoQuery`
reproduces a regex-free filter unchanged: every `$and`/`$or` value is an
array of objects, recursively through object values. -/

mutual

def shapeEntries : Obj → Bool
  | [] => true
  | (k, v) :: rest =>
    (if k == "$and" || k == "$or" then
      match v with
      | .vArr items => shapeItems items
      | _ => false
    else shapeValue v) && shapeEntries rest

def shapeValue : MValue → Bool
  | .vObj fields => shapeEntries fields
  | _ => true

def shapeItems : List MValue → Bool
  | [] => true
  | x :: xs =>
    (match x with
     | .vObj o => shapeEntries o
     | _ => false) && shapeItems xs

end

/-- Pairwise-distinct keys (JavaScript objects cannot repeat a key). -/
def keysNodup : List String → Bool
  | [] => true
  | k :: ks => ks.all (fun k' => k' != k) && keysNodup ks

/-- Well-formedness of an object whose `$regex` member is a native regex:
its keys are those of a JS object (no duplicates) and every other member
is a regex-free, well-shaped, non-logical entry.  Such an object is
consumed whole by the spread rewrite on both the code and the spec side. -/
def patternObjOk (fields : Obj) : Bool :=
  keysNodup (fields.map Prod.fst) &&
  fields.all (fun e =>
    e.1 == "$regex" ||
    (e.1 != "$and" && e.1 != "$or" && regexFreeValue e.2 && shapeValue e.2))

/-! `good*`: the class of raw filter objects covered by the C6 claim:
native regexes appear as field values, as the value of a `$regex` key, or
inside `$and`/`$or` arrays of sub-filter objects; plain (non-logical)
array values are regex-free, and `$and`/`$or` items are objects not headed
by a native-regex `$regex` member. -/

mutual

def goodEntries : Obj → Bool
  | [] => true
  | (k, v) :: rest =>
    (if k == "$and" || k == "$or" then
      match v with
      | .vArr items => goodItems items
      | _ => false
    else goodValue v) && goodEntries rest

def goodValue : MValue → Bool
  | .vRegex _ _ => true
  | .vObj fields =>
    (match Obj.get fields "$regex" with
     | some (.vRegex _ _) => patternObjOk fields
     | _ => goodEntries fields)
  | .vArr xs => regexFreeList xs
  | _ => true

def goodItems : List MValue → Bool
  | [] => true
  | x :: xs =>
    (match x with
     | .vObj o =>
       (match Obj.get o "$regex" with
        | some (.vRegex _ _) => false
        | _ => goodEntries o)
     | _ => false) && goodItems xs

end

/-!
### Aggregation pipelines (`aggregate`)

`aggregate(pipeline)` first drops falsy stages (`pipeline.filter(Boolean)`)
and then rewrites every `$match` stage value of object type through
`processMongoQuery`, keeping all other stage members as they are.
-/

/-- `typeof value === 'object' && value !== null`. -/
def isObjectType : MValue → Bool
  | .vObj _ => true
  | .vArr _ => true
  | .vRegex _ _ => true
  | _ => false

/-- `Object.entries` of a pipeline stage (stages are normally objects;
arrays and strings enumerate index entries, other primitives nothing). -/
def stageEntries : MValue → Obj
  | .vObj o => o
  | .vArr xs => xs.enum.map (fun p => (toString p.1, p.2))
  | .vStr s => s.data.enum.map (fun p => (toString p.1, .vStr (String.singleton p.2)))
  | _ => []

/-- One stage of the `aggregate` pipeline rewrite. -/
def processStage (stage : MValue) : MValue :=
  .vObj ((stageEntries stage).map (fun e =>
    if e.1 == "$match" && isObjectType e.2 then
      (e.1, .vObj (processMongoQuery e.2))
    else e))

/-- The pipeline actually executed by `aggregate`: falsy stages dropped,
then each stage rewritten. -/
def processPipeline (pipeline : List MValue) : List MValue :=
  (pipeline.filter (fun st => st.truthy)).map processStage

/-- Spec-side counterpart of `processStage`: the `$match` object written
in store-native form. -/
def specStage (stage : MValue) : MValue :=
  .vObj ((stageEntries stage).map (fun e =>
    if e.1 == "$match" && isObjectType e.2 then
      (e.1, .vObj (specRewriteEntries (stageEntries e.2)))
    else e))

/-- The C6 side condition on a pipeline stage: any `$match` member of
object type is a filter object in the `goodEntries` class. -/
def stageGood (stage : MValue) : Bool :=
  (stageEntries stage).all (fun e =>
    e.1 != "$match" ||
    (match e.2 with
     | .vObj o => goodEntries o
     | _ => !isObjectType e.2))

/-!
## Heap model of the query builder (`clone`, C5)

`clone()` copies the builder's `filter` with an object spread
(`{ ...this.filter }`): a shallow copy.  Nested operator objects (and the
`$or` array) are JavaScript heap objects shared by reference between the
original and the clone, and the `where` merge branch mutates them in
place.  This embedding makes the reference structure explicit: a heap of
objects/arrays addressed by allocation index, and a builder holding a
reference to its filter root.  `sortOptions` and `projection` only ever
hold scalar weights and are only assigned at top level, so their shallow
copies behave as deep copies; they are kept as pure record fields, as are
the scalar `limitValue`/`skipValue`.

Caller-supplied filter values in the fluent calls are modelled as
primitives; a structured argument would enter the heap as an object the
caller allocated, which the clone and the original never share either.
-/

/-- A primitive JavaScript value passed to a fluent builder call. -/
inductive PrimVal : Type where
  | pNull : PrimVal
  | pBool (b : Bool) : PrimVal
  | pInt (n : Int) : PrimVal
  | pStr (s : String) : PrimVal
  deriving DecidableEq

/-- A value stored in a heap object: a primitive or a reference. -/
inductive HVal : Type where
  | hNull : HVal
  | hBool (b : Bool) : HVal
  | hInt (n : Int) : HVal
  | hStr (s : String) : HVal
  | ref (addr : Nat) : HVal
  deriving DecidableEq

def PrimVal.toHVal : PrimVal → HVal
  | .pNull => .hNull
  | .pBool b => .hBool b
  | .pInt n => .hInt n
  | .pStr s => .hStr s

/-- Is this heap value a primitive (not a reference)? -/
def HVal.isPrim : HVal → Bool
  | .ref _ => false
  | _ => true

/-- JS truthiness of a heap value (references are objects: truthy). -/
def HVal.truthyH : HVal → Bool
  | .hNull => false
  | .hBool b => b
  | .hInt n => n != 0
  | .hStr s => s ≠ ""
  | .ref _ => true

/-- A heap cell: a JavaScript object or array. -/
inductive HObj : Type where
  | obj (fields : List (String × HVal)) : HObj
  | arr (items : List HVal) : HObj
  deriving DecidableEq

/-- Association-list assignment on heap-object fields. -/
def setF : List (String × HVal) → String → HVal → List (String × HVal)
  | [], k, v => [(k, v)]
  | (k₀, v₀) :: rest, k, v =>
    if k₀ == k then (k₀, v) :: rest else (k₀, v₀) :: setF rest k v

/-- Association-list lookup on heap-object fields. -/
def getF : List (String × HVal) → String → Option HVal
  | [], _ => none
  | (k₀, v₀) :: rest, k => if k₀ == k then some v₀ else getF rest k

/-- The heap: cells addressed by allocation index. -/
structure Heap : Type where
  cells : List HObj
  deriving DecidableEq

def Heap.read (h : Heap) (a : Nat) : Option HObj :=
  h.cells[a]?

def Heap.write (h : Heap) (a : Nat) (o : HObj) : Heap :=
  { cells := h.cells.set a o }

def Heap.alloc (h : Heap) (o : HObj) : Heap × Nat :=
  ({ cells := h.cells ++ [o] }, h.cells.length)

/-- The builder, with its mutable `filter` object held by reference. -/
structure HQueryBuilder : Type where
  filterRef : Nat
  sortOptions : List (String × Int) := []
  projection : List (String × Int) := []
  limitValue : Option Int := none
  skipValue : Option Int := none
  deriving DecidableEq

/-- Assignment on the pure sort/projection maps. -/
def setW : List (String × Int) → String → Int → List (String × Int)
  | [], k, v => [(k, v)]
  | (k₀, v₀) :: rest, k, v =>
    if k₀ == k then (k₀, v) :: rest else (k₀, v₀) :: setW rest k v

/-- The entry list of a builder's root filter object. -/
def cloneRootFields (h : Heap) (r : Nat) : List (String × HVal) :=
  match h.read r with
  | some (.obj fs) => fs
  | _ => []

/-- `clone()`: fresh builder, filter copied with a shallow spread
(`{ ...this.filter }`) — nested references are shared — and
sort/projection/limit/skip copied. -/
def cloneB (h : Heap) (b : HQueryBuilder) : Heap × HQueryBuilder :=
  let (h₁, r) := h.alloc (.obj (cloneRootFields h b.filterRef))
  (h₁, { b with filterRef := r })

/-- Heap analogue of the merge branch of `where(key, operator, value)`
(cf. `MongoQueryBuilder.mergeOperator`). -/
def hMergeOperator (fields : List (String × HVal)) (operator : String)
    (v : HVal) : Option (List (String × HVal)) :=
  match operator with
  | "=" => none
  | ">" => some (setF fields "$gt" v)
  | ">=" => some (setF fields "$gte" v)
  | "<" => some (setF fields "$lt" v)
  | "<=" => some (setF fields "$lte" v)
  | "!=" => some (setF fields "$ne" v)
  | "like" => some (setF (setF fields "$regex" v) "$options" (.hStr "i"))
  | "in" => some (setF fields "$in" v)
  | "not in" => some (setF fields "$nin" v)
  | op => some (setF fields op v)

/-- Heap analogue of the create branch of `where(key, operator, value)`
(cf. `MongoQueryBuilder.freshCondition`): the freshly allocated condition
object. -/
def hFreshCondition (operator : String) (v : HVal) :
    List (String × HVal) :=
  match operator with
  | "=" => []
  | ">" => [("$gt", v)]
  | ">=" => [("$gte", v)]
  | "<" => [("$lt", v)]
  | "<=" => [("$lte", v)]
  | "!=" => [("$ne", v)]
  | "like" => [("$regex", v), ("$options", .hStr "i")]
  | "in" => [("$in", v)]
  | "not in" => [("$nin", v)]
  | op => [(op, v)]

/-- Write `this.filter[key] = v` at the builder's root object. -/
def writeRootField (h : Heap) (b : HQueryBuilder) (key : String)
    (v : HVal) : Heap :=
  match h.read b.filterRef with
  | some (.obj fields) => h.write b.filterRef (.obj (setF fields key v))
  | _ => h

/-- `where(key, value)` (two-argument overload). -/
def hWhereKV (h : Heap) (b : HQueryBuilder) (key : String) (v : PrimVal) :
    Heap × HQueryBuilder :=
  (writeRootField h b key v.toHVal, b)

/-- The create branch of `where(key, operator, value)` in the heap model:
a fresh condition object is allocated and referenced from the root (for
`=`, the bare value is stored). -/
def hWhereCreate (h : Heap) (b : HQueryBuilder) (key operator : String)
    (v : PrimVal) : Heap × HQueryBuilder :=
  if operator == "=" then (writeRootField h b key v.toHVal, b)
  else
    let (h₁, c) := h.alloc (.obj (hFreshCondition operator v.toHVal))
    (writeRootField h₁ b key (.ref c), b)

/-- `where(key, operator, value)`: when the existing condition for `key`
is an object (a truthy, non-array heap object), merge in place into the
shared condition object; otherwise take the create branch. -/
def hWhereOp (h : Heap) (b : HQueryBuilder) (key operator : String)
    (v : PrimVal) : Heap × HQueryBuilder :=
  let rootFields :=
    match h.read b.filterRef with
    | some (.obj fields) => fields
    | _ => []
  match getF rootFields key with
  | some (.ref a) =>
    match h.read a with
    | some (.obj condFields) =>
      match hMergeOperator condFields operator v.toHVal with
      | some merged => (h.write a (.obj merged), b)
      | none => (writeRootField h b key v.toHVal, b)
    | _ => hWhereCreate h b key operator v
  | _ => hWhereCreate h b key operator v

/-- The heap after `orWhere`'s clone (unreachable copy of the root's
entries) and the allocation of the reset, empty sub-filter object. -/
def preOrHeap (h : Heap) (b : HQueryBuilder) : Heap :=
  ((h.alloc (.obj (cloneRootFields h b.filterRef))).1.alloc (.obj [])).1

/-- The address of `orWhere`'s fresh empty sub-filter object. -/
def preOrSubRef (h : Heap) (b : HQueryBuilder) : Nat :=
  (h.alloc (.obj (cloneRootFields h b.filterRef))).1.cells.length

/-- First half of `orWhere`: clone the builder, reset the clone's filter
to a fresh empty object, and apply the condition to that sub-filter.
Returns the heap and the sub-filter object's address. -/
def hOrWhereSub (h : Heap) (b : HQueryBuilder) (key : String)
    (operator : Option String) (v : PrimVal) : Heap × Nat :=
  (match operator with
   | none =>
     (hWhereKV (preOrHeap h b) { b with filterRef := preOrSubRef h b }
       key v).1
   | some op =>
     (hWhereOp (preOrHeap h b) { b with filterRef := preOrSubRef h b }
       key op v).1,
   preOrSubRef h b)

/-- Second half of `orWhere`: push the sub-filter object onto this
builder's `$or` array, creating the array on first use.  (On an existing
truthy non-array `$or` member JavaScript would throw from `push`; that
branch creates a fresh array here, and no state reached by the fluent
calls hits it.) -/
def hOrWherePush (h : Heap) (b : HQueryBuilder) (subRef : Nat) : Heap :=
  let rootFields :=
    match h.read b.filterRef with
    | some (.obj fields) => fields
    | _ => []
  match getF rootFields "$or" with
  | some (.ref a) =>
    match h.read a with
    | some (.arr items) => h.write a (.arr (items ++ [.ref subRef]))
    | _ => h
  | _ =>
    let (h₄, arrAddr) := h.alloc (.arr [])
    let h₅ := writeRootField h₄ b "$or" (.ref arrAddr)
    h₅.write arrAddr (.arr [.ref subRef])

/-- `orWhere(key, ...)`: build the sub-filter on a cloned builder with a
reset filter, then append it to the parent's `$or` array. -/
def hOrWhere (h : Heap) (b : HQueryBuilder) (key : String)
    (operator : Option String) (v : PrimVal) : Heap × HQueryBuilder :=
  let (h₃, subRef) := hOrWhereSub h b key operator v
  (hOrWherePush h₃ b subRef, b)

/-- The fluent calls of the C5 claim. -/
inductive BOp : Type where
  | opWhereKV (key : String) (v : PrimVal) : BOp
  | opWhereOp (key operator : String) (v : PrimVal) : BOp
  | opOrWhereKV (key : String) (v : PrimVal) : BOp
  | opOrWhereOp (key operator : String) (v : PrimVal) : BOp
  | opSelect (fields : List String) : BOp
  | opOrderBy (field direction : String) : BOp
  | opLimit (n : Int) : BOp
  | opOffset (n : Int) : BOp
  deriving DecidableEq

def applyOp (h : Heap) (b : HQueryBuilder) : BOp → Heap × HQueryBuilder
  | .opWhereKV key v => hWhereKV h b key v
  | .opWhereOp key operator v => hWhereOp h b key operator v
  | .opOrWhereKV key v => hOrWhere h b key none v
  | .opOrWhereOp key operator v => hOrWhere h b key (some operator) v
  | .opSelect fields =>
    (h, { b with
      projection := fields.foldl (fun p f => setW p f 1) b.projection })
  | .opOrderBy field direction =>
    (h, { b with
      sortOptions :=
        setW b.sortOptions field (if direction == "asc" then 1 else -1) })
  | .opLimit n => (h, { b with limitValue := some n })
  | .opOffset n => (h, { b with skipValue := some n })

def applyOps (h : Heap) (b : HQueryBuilder) : List BOp →
    Heap × HQueryBuilder
  | [] => (h, b)
  | op :: rest =>
    let (h₁, b₁) := applyOp h b op
    applyOps h₁ b₁ rest

/-- The heap addresses referenced from an object's entries. -/
def refsF : List (String × HVal) → List Nat
  | [] => []
  | (_, .ref a) :: rest => a :: refsF rest
  | _ :: rest => refsF rest

/-- The heap addresses referenced from a builder root's entries. -/
def rootRefs (h : Heap) (r : Nat) : List Nat :=
  match h.read r with
  | some (.obj fields) => refsF fields
  | _ => []

/-- The builder root exists and all its entries are primitive values (no
operator objects or `$or` array yet). -/
def flatRoot (h : Heap) (r : Nat) : Bool :=
  match h.read r with
  | some (.obj fields) => fields.all (fun e => e.2.isPrim)
  | _ => false

/-- Materialize a builder's filter, resolving one level of references
(condition objects resolved entry-wise to their primitive members,
deeper references rendered as null).  Exact for the flat and one-level
states the fluent API builds. -/
def primToM : HVal → MValue
  | .hNull => .vNull
  | .hBool b => .vBool b
  | .hInt n => .vInt n
  | .hStr s => .vStr s
  | .ref _ => .vNull

def resolveVal (h : Heap) : HVal → MValue
  | .ref a =>
    (match h.read a with
     | some (.obj fields) => .vObj (fields.map (fun e => (e.1, primToM e.2)))
     | some (.arr items) => .vArr (items.map primToM)
     | none => .vNull)
  | v => primToM v

def materializeFilter2 (h : Heap) (r : Nat) : Obj :=
  match h.read r with
  | some (.obj fields) => fields.map (fun e => (e.1, resolveVal h e.2))
  | _ => []

/-- Separation invariant for the C5 frame argument: the observer's cell
`obs` is allocated, distinct from the mutating builder's filter root, and
not referenced from that root's entries. -/
def FrameInv (h : Heap) (b : HQueryBuilder) (obs : Nat) : Prop :=
  obs < h.cells.length ∧ b.filterRef < h.cells.length ∧
  obs ≠ b.filterRef ∧ ∀ a ∈ rootRefs h b.filterRef, a ≠ obs

/-- Helper for C2: a non-`=` comparison operator together with the
MongoDB operator key it maps to. -/
def simpleOpKey : String → Option String
  | ">" => some "$gt"
  | ">=" => some "$gte"
  | "<" => some "$lt"
  | "<=" => some "$lte"
  | "!=" => some "$ne"
  | "in" => some "$in"
  | "not in" => some "$nin"
  | _ => none

/-!
## Model layer (`base_model.ts`, `decorators.ts`)

Decorated columns, the model instance state (`$isNew`,
`$primaryKeyValue`, `$original`, `$attributes`, and the non-`$` own
properties as `fields`), a store of documents, and the model operations
`toObject`, `processFromDatabase`, `serialize`, `isDirty`, `save`,
`refresh`, `delete`, `find`/`findBy` and the query builder's `exec`
hydration.  JS strict inequality `!==` between attribute values is
modelled structurally (`MValue.beq`), faithful for the primitive values
these claims range over.
-/

/-- The options a caller passes to the `column(...)` decorator.  A field
`none` models an option that was not given; `serializeAs`'s inner
`Option` distinguishes `null` (`some none`) from a rename string. -/
structure ColOptions : Type where
  columnName : Option String := none
  isPrimary : Option Bool := none
  serialize : Option Bool := none
  prepare : Option (MValue → MValue) := none
  consume : Option (MValue → MValue) := none
  serializeAs : Option (Option String) := none

/-- A stored column definition, as kept in `$columnsDefinitions`.
`serializeAs = none` models reading an absent property (undefined). -/
structure ColumnDef : Type where
  columnName : String
  isPrimary : Bool
  serialize : Bool
  prepare : Option (MValue → MValue) := none
  consume : Option (MValue → MValue) := none
  serializeAs : Option (Option String) := none

/-- `column(options)` (decorators.ts): the stored definition holds only
`columnName`, `isPrimary`, `serialize`, `prepare` and `consume` — the
object literal it stores has no `serializeAs` key, so the stored
definition's `serializeAs` is always undefined (`none`). -/
def columnDecorator (property : String) (opts : ColOptions) : ColumnDef :=
  { columnName :=
      match opts.columnName with
      | some s => if s == "" then property else s
      | none => property,
    isPrimary := opts.isPrimary.getD false,
    serialize := !(opts.serialize == some false),
    prepare := opts.prepare,
    consume := opts.consume,
    serializeAs := none }

/-- Spec-modelled variant of the decorator (what the spec and the
serialization docs/tests assume): the requested `serializeAs` is kept on
the stored definition.  Used only to exhibit the divergence from
`columnDecorator`. -/
def specColumnDecorator (property : String) (opts : ColOptions) :
    ColumnDef :=
  { columnDecorator property opts with serializeAs := opts.serializeAs }

/-- A stored computed-property definition (`$computedDefinitions`): the
`computed()` decorator stores only `serialize`. -/
structure ComputedDef : Type where
  serialize : Bool
  serializeAs : Option (Option String) := none

/-- `computed(options)`: stores `{ serialize }` only. -/
def computedDecorator (serializeOpt : Option Bool) : ComputedDef :=
  { serialize := !(serializeOpt == some false), serializeAs := none }

/-- A computed property: name, stored definition and its getter.  The
getter returning `none` models a getter that throws. -/
structure ComputedEntry : Type where
  name : String
  cdef : ComputedDef
  getter : Obj → Option MValue

/-- The model class: primary key name, column and computed definitions
(insertion order), and which lifecycle hooks the class defines. -/
structure MClass : Type where
  primaryKey : String := "_id"
  columns : List (String × ColumnDef) := []
  computedDefs : List ComputedEntry := []
  hasBeforeSave : Bool := false
  hasBeforeCreate : Bool := false
  hasBeforeUpdate : Bool := false
  hasAfterCreate : Bool := false
  hasAfterUpdate : Bool := false
  hasAfterSave : Bool := false
  hasBeforeDelete : Bool := false
  hasAfterDelete : Bool := false
  hasBeforeFind : Bool := false
  hasAfterFind : Bool := false

/-- A model instance: the non-`$` own properties (`fields`), `$isNew`,
`$primaryKeyValue`, `$original` and `$attributes`. -/
structure ModelState : Type where
  fields : Obj := []
  isNew : Bool := true
  pkValue : Option MValue := none
  original : Obj := []
  attrs : Obj := []

/-- Association-list lookup (`Map.get`). -/
def getA {α : Type} : List (String × α) → String → Option α
  | [], _ => none
  | (k₀, v₀) :: rest, k => if k₀ == k then some v₀ else getA rest k

/-- The `columnsDefinitions` scan of `processFromDatabase`: the first
`(propName, def)` with `def.columnName === key || propName === key`. -/
def findPropDef (cols : List (String × ColumnDef)) (key : String) :
    Option (String × ColumnDef) :=
  cols.find? (fun e => e.2.columnName == key || e.1 == key)

/-- `toObject()`: every non-`$` own property, renamed to its
`columnName` and passed through `prepare` when the property is a
declared column. -/
def toObject (cls : MClass) (m : ModelState) : Obj :=
  m.fields.foldl (fun obj e =>
    match getA cls.columns e.1 with
    | some cd =>
      let cn := if cd.columnName == "" then e.1 else cd.columnName
      match cd.prepare with
      | some f => Obj.set obj cn (f e.2)
      | none => Obj.set obj cn e.2
    | none => Obj.set obj e.1 e.2) []

/-- `processFromDatabase(data)`: each database entry is written to the
property whose column maps to it (through `consume` when declared);
`$attributes` is not touched. -/
def processFromDatabase (cls : MClass) (m : ModelState) (data : Obj) :
    ModelState :=
  data.foldl (fun m₁ e =>
    match findPropDef cls.columns e.1 with
    | some (propName, cd) =>
      match cd.consume with
      | some f => { m₁ with fields := Obj.set m₁.fields propName (f e.2) }
      | none => { m₁ with fields := Obj.set m₁.fields propName e.2 }
    | none => { m₁ with fields := Obj.set m₁.fields e.1 e.2 }) m

/-- `serialize()`: skips columns with `serialize: false`, then applies
the stored `serializeAs` (null excludes, string renames without
`prepare`, undefined keeps the property name); computed properties
likewise, skipped when their getter throws. -/
def serialize (cls : MClass) (m : ModelState) : Obj :=
  let base := m.fields.foldl (fun obj e =>
    match getA cls.columns e.1 with
    | some cd =>
      if !cd.serialize then obj
      else
        match cd.serializeAs with
        | some none => obj
        | some (some s) => Obj.set obj s e.2
        | none => Obj.set obj e.1 e.2
    | none => Obj.set obj e.1 e.2) []
  cls.computedDefs.foldl (fun obj ce =>
    if !ce.cdef.serialize then obj
    else
      match ce.getter m.fields with
      | none => obj
      | some v =>
        match ce.cdef.serializeAs with
        | some none => obj
        | some (some s) => Obj.set obj s v
        | none => Obj.set obj ce.name v) base

/-- JS `a !== b` over possibly-undefined attribute values, structurally
(both undefined compare equal; `undefined !== v` for defined `v`). -/
def valNeq : Option MValue → Option MValue → Bool
  | none, none => false
  | some a, some b => !(MValue.beq a b)
  | _, _ => true

/-- `isDirty(key?)`: a new instance is always dirty; a named key
compares the property against `$original`; with no key (or a falsy
one), every key of `$attributes` is compared. -/
def isDirty (m : ModelState) (key : Option String) : Bool :=
  if m.isNew then true
  else
    match key with
    | some k =>
      if k == "" then
        m.attrs.any (fun e =>
          valNeq (Obj.get m.fields e.1) (Obj.get m.original e.1))
      else valNeq (Obj.get m.fields k) (Obj.get m.original k)
    | none =>
      m.attrs.any (fun e =>
        valNeq (Obj.get m.fields e.1) (Obj.get m.original e.1))

/-- The store: a collection of documents plus the driver's ObjectId
counter. -/
structure MStore : Type where
  docs : List Obj := []
  nextId : Nat := 0

/-- MongoDB equality match `{key: v}` on one document (a missing field
matches a `null` query value). -/
def docMatchesKV (d : Obj) (k : String) (v : MValue) : Bool :=
  match Obj.get d k with
  | some w => MValue.beq w v
  | none => MValue.beq v .vNull

/-- `where(key, v).first()` against the store. -/
def firstKV (st : MStore) (k : String) (v : MValue) : Option Obj :=
  st.docs.find? (fun d => docMatchesKV d k v)

/-- `$set` application to one document. -/
def applySet (d setDoc : Obj) : Obj :=
  setDoc.foldl (fun acc e => Obj.set acc e.1 e.2) d

/-- `updateMany({key: v}, {$set: doc})`. -/
def updateSetKV (st : MStore) (k : String) (v : MValue) (setDoc : Obj) :
    MStore :=
  { st with docs :=
      st.docs.map (fun d => if docMatchesKV d k v then applySet d setDoc
        else d) }

/-- `deleteMany({key: v})`. -/
def deleteKV (st : MStore) (k : String) (v : MValue) : MStore :=
  { st with docs := st.docs.filter (fun d => !docMatchesKV d k v) }

/-- `insertOne(doc)`: the driver assigns a fresh ObjectId when the
document has no `_id`, and returns the inserted id. -/
def insertOne (st : MStore) (doc : Obj) : MValue × MStore :=
  match Obj.get doc "_id" with
  | some v => (v, { st with docs := st.docs ++ [doc] })
  | none =>
    let id := MValue.vId (toString st.nextId)
    (id, { docs := st.docs ++ [Obj.set doc "_id" id],
           nextId := st.nextId + 1 })

/-- An observable event of a model operation: a lifecycle hook firing,
or a store call. -/
inductive Ev : Type where
  | hook (name : String) : Ev
  | insertCall (doc : Obj) : Ev
  | updateCall (key : String) (v : MValue) (setDoc : Obj) : Ev
  | deleteCall (key : String) (v : MValue) : Ev
  | firstCall (key : String) (v : MValue) : Ev

/-- The trace a hook contributes: its name when the class defines it. -/
def hookEv (flag : Bool) (name : String) : List Ev :=
  if flag then [.hook name] else []

/-- The hooks of a trace, in firing order. -/
def hookNames : List Ev → List String
  | [] => []
  | .hook n :: rest => n :: hookNames rest
  | _ :: rest => hookNames rest

/-- The model errors raised by `save`/`delete`/`refresh`. -/
inductive ModelErr : Type where
  | modelPrimaryKeyMissing : ModelErr
  deriving DecidableEq

/-- `refresh()`: throws when the instance is new or has no truthy
primary-key value; on a missing document, flips back to new and clears
the primary key without touching the other fields; otherwise re-hydrates
and re-snapshots `$original`. -/
def refresh (cls : MClass) (st : MStore) (m : ModelState) :
    Except ModelErr (ModelState × List Ev) :=
  if m.isNew || !truthyOpt m.pkValue then .error .modelPrimaryKeyMissing
  else
    let pk := m.pkValue.getD .vNull
    match firstKV st cls.primaryKey pk with
    | none =>
      .ok ({ m with isNew := true, pkValue := none },
        [.firstCall cls.primaryKey pk])
    | some doc =>
      let m₁ := processFromDatabase cls m doc
      .ok ({ m₁ with original := toObject cls m₁ },
        [.firstCall cls.primaryKey pk])

/-- `save()` (base_model.ts lines 303–361): beforeSave, then
beforeCreate/beforeUpdate; insert (assign id, flip to persisted) or
update, each followed by `refresh()`; then afterSave, then
afterCreate/afterUpdate — in this source order. -/
def save (cls : MClass) (st : MStore) (m : ModelState) :
    Except ModelErr (ModelState × MStore × List Ev) :=
  let tr₁ := hookEv cls.hasBeforeSave "beforeSave" ++
    (if m.isNew then hookEv cls.hasBeforeCreate "beforeCreate"
     else hookEv cls.hasBeforeUpdate "beforeUpdate")
  let attributes := toObject cls m
  if m.isNew then
    let ins := insertOne st attributes
    let m₁ := { m with pkValue := some ins.1, isNew := false }
    match refresh cls ins.2 m₁ with
    | .error e => .error e
    | .ok (m₂, evR) =>
      .ok (m₂, ins.2,
        tr₁ ++ [.insertCall attributes] ++ evR ++
        hookEv cls.hasAfterSave "afterSave" ++
        hookEv cls.hasAfterCreate "afterCreate")
  else
    if !truthyOpt m.pkValue then .error .modelPrimaryKeyMissing
    else
      let pk := m.pkValue.getD .vNull
      let st₁ := updateSetKV st cls.primaryKey pk attributes
      match refresh cls st₁ m with
      | .error e => .error e
      | .ok (m₂, evR) =>
        .ok (m₂, st₁,
          tr₁ ++ [.updateCall cls.primaryKey pk attributes] ++ evR ++
          hookEv cls.hasAfterSave "afterSave" ++
          hookEv cls.hasAfterUpdate "afterUpdate")

/-- `delete()`: guards the primary key, then beforeDelete, the store
delete, afterDelete; the instance's state is not changed. -/
def deleteModel (cls : MClass) (st : MStore) (m : ModelState) :
    Except ModelErr (MStore × List Ev) :=
  if m.isNew || !truthyOpt m.pkValue then .error .modelPrimaryKeyMissing
  else
    let pk := m.pkValue.getD .vNull
    .ok (deleteKV st cls.primaryKey pk,
      hookEv cls.hasBeforeDelete "beforeDelete" ++
      [.deleteCall cls.primaryKey pk] ++
      hookEv cls.hasAfterDelete "afterDelete")

/-- `createModelFromResult(result)`: hydrate a fresh instance, set
`$primaryKeyValue` from the *raw* result's primary-key field, mark as
persisted, snapshot `$original`. -/
def createModelFromResult (cls : MClass) (result : Obj) : ModelState :=
  let m := processFromDatabase cls {} result
  let m₁ := { m with
    pkValue := Obj.get result cls.primaryKey
    isNew := false }
  { m₁ with original := toObject cls m₁ }

/-- `Model.find(id)`: beforeFind, `where(primaryKey, id).first()`,
hydration, afterFind when found. -/
def findModel (cls : MClass) (st : MStore) (idv : MValue) :
    Option ModelState × List Ev :=
  let tr₁ := hookEv cls.hasBeforeFind "beforeFind" ++
    [.firstCall cls.primaryKey idv]
  match firstKV st cls.primaryKey idv with
  | none => (none, tr₁)
  | some r =>
    (some (createModelFromResult cls r),
      tr₁ ++ hookEv cls.hasAfterFind "afterFind")

/-- `Model.findBy(key, value)`. -/
def findByModel (cls : MClass) (st : MStore) (key : String) (v : MValue) :
    Option ModelState × List Ev :=
  let tr₁ := hookEv cls.hasBeforeFind "beforeFind" ++ [.firstCall key v]
  match firstKV st key v with
  | none => (none, tr₁)
  | some r =>
    (some (createModelFromResult cls r),
      tr₁ ++ hookEv cls.hasAfterFind "afterFind")

/-- The query builder's `exec()` hydration of one raw result: hydrate,
mark persisted, set the primary key from `result._id` when truthy,
snapshot `$original`. -/
def execHydrate (cls : MClass) (result : Obj) : ModelState :=
  let m := processFromDatabase cls {} result
  let m₁ := { m with isNew := false }
  let m₂ :=
    if truthyOpt (Obj.get result "_id") then
      { m₁ with pkValue := Obj.get result "_id" }
    else m₁
  { m₂ with original := toObject cls m₂ }

/-!
## Execute-class methods' event skeleton (`query_builder.ts`)

Each execute-class method wraps one driver call in try/catch: on
success it emits one `mongodb:query` event and returns the processed
result; on failure it emits one event carrying the error and rethrows.
The driver call's outcome is the `driver` parameter. -/

/-- A driver failure, carried through unchanged to the caller. -/
structure DErr : Type where
  msg : String
  deriving DecidableEq

/-- One emitted `mongodb:query` event: which method, and whether the
payload carries an `error` field. -/
structure QEvent : Type where
  kind : String
  failed : Bool
  deriving DecidableEq

/-- `exec()`: fetch, emit one event, hydrate each raw result into a
model instance; on driver failure emit one error event and rethrow. -/
def execE (cls : MClass) (driver : Except DErr (List Obj)) :
    Except DErr (List ModelState) × List QEvent :=
  match driver with
  | .ok results => (.ok (results.map (execHydrate cls)), [⟨"exec", false⟩])
  | .error e => (.error e, [⟨"exec", true⟩])

/-- `count()`. -/
def countE (driver : Except DErr Nat) : Except DErr Nat × List QEvent :=
  match driver with
  | .ok n => (.ok n, [⟨"count", false⟩])
  | .error e => (.error e, [⟨"count", true⟩])

/-- `update(data)`: returns `result.modifiedCount`. -/
def updateE (driver : Except DErr Nat) : Except DErr Nat × List QEvent :=
  match driver with
  | .ok n => (.ok n, [⟨"update", false⟩])
  | .error e => (.error e, [⟨"update", true⟩])

/-- `delete()`: returns `result.deletedCount || 0`. -/
def deleteE (driver : Except DErr (Option Nat)) :
    Except DErr Nat × List QEvent :=
  match driver with
  | .ok n => (.ok (n.getD 0), [⟨"delete", false⟩])
  | .error e => (.error e, [⟨"delete", true⟩])

/-- `insert(data)`: returns `result.insertedId`. -/
def insertE (driver : Except DErr MValue) :
    Except DErr MValue × List QEvent :=
  match driver with
  | .ok id => (.ok id, [⟨"insert", false⟩])
  | .error e => (.error e, [⟨"insert", true⟩])

/-- `insertMany(data)`: returns the inserted ids. -/
def insertManyE (driver : Except DErr (List MValue)) :
    Except DErr (List MValue) × List QEvent :=
  match driver with
  | .ok ids => (.ok ids, [⟨"insertMany", false⟩])
  | .error e => (.error e, [⟨"insertMany", true⟩])

/-- `aggregate(pipeline)`: the falsy-stage filter and `$match`
normalization (`processPipeline`) run first, then one driver call on
the processed pipeline, with the same one-event-per-path skeleton. -/
def aggregateE (pipeline : List MValue)
    (run : List MValue → Except DErr (List Obj)) :
    Except DErr (List Obj) × List QEvent :=
  match run (processPipeline pipeline) with
  | .ok results => (.ok results, [⟨"aggregate", false⟩])
  | .error e => (.error e, [⟨"aggregate", true⟩])

/-!
## Relations (`has_one.ts`, `belongs_to.ts`, HasMany and BelongsToMany)

Each operation first reads the owner's local-key value
(`this.ownerModel[this.localKey]`); a falsy value short-circuits.  Store
interactions are recorded as `RelCall` descriptors in issue order.
-/

/-- `ensureObjectId`: promote a valid 24-hex-digit string to an
ObjectId, pass anything else through. -/
def ensureObjectId (v : MValue) : MValue :=
  match v with
  | .vStr s =>
    if s.length == 24 && s.toList.all (fun c =>
        c.isDigit || "abcdefABCDEF".toList.contains c)
    then .vId s else .vStr s
  | _ => v

/-- A store interaction issued by a relation operation. -/
inductive RelCall : Type where
  | findByCall (key : String) (v : MValue) : RelCall
  | execCall (key : String) (v : MValue) : RelCall
  | whereInExecCall (key : String) (ids : List MValue) : RelCall
  | saveRelated : RelCall
  | createRelated (doc : Obj) : RelCall
  | updateWhereCall (key : String) (v : MValue) (setDoc : Obj) : RelCall
  | deleteWhereCall (key : String) (v : MValue)
      (restrict : Option (String × List MValue)) : RelCall
  | countCall (k₁ : String) (v₁ : MValue) (k₂ : String) (v₂ : MValue) :
      RelCall
  | firstPivotCall (k₁ : String) (v₁ : MValue) (k₂ : String)
      (v₂ : MValue) : RelCall
  | updatePivotCall (k₁ : String) (v₁ : MValue) (k₂ : String)
      (v₂ : MValue) (setDoc : Obj) : RelCall

/-- `HasOne.exec()`: null on a falsy local key, otherwise
`relatedModel.findBy(foreignKey, ensureObjectId(v))`. -/
def hasOneExec (st : MStore) (owner : ModelState)
    (foreignKey localKey : String) :
    Except String (Option Obj) × List RelCall :=
  let lkv := Obj.get owner.fields localKey
  if !truthyOpt lkv then (.ok none, [])
  else
    let v := ensureObjectId (lkv.getD .vNull)
    (.ok (firstKV st foreignKey v), [.findByCall foreignKey v])

/-- `HasOne.save(related)`: throws on a falsy local key; otherwise sets
the foreign key on the related model and saves it. -/
def hasOneSave (owner related : ModelState)
    (foreignKey localKey : String) :
    Except String ModelState × List RelCall :=
  let lkv := Obj.get owner.fields localKey
  if !truthyOpt lkv then
    (.error "Cannot save relation. The local key value is undefined", [])
  else
    let v := ensureObjectId (lkv.getD .vNull)
    (.ok { related with fields := Obj.set related.fields foreignKey v },
      [.saveRelated])

/-- `HasOne.create(values)`. -/
def hasOneCreate (owner : ModelState) (values : Obj)
    (foreignKey localKey : String) : Except String Obj × List RelCall :=
  let lkv := Obj.get owner.fields localKey
  if !truthyOpt lkv then
    (.error "Cannot create relation. The local key value is undefined",
      [])
  else
    let v := ensureObjectId (lkv.getD .vNull)
    let doc := Obj.set values foreignKey v
    (.ok doc, [.createRelated doc])

/-- `HasOne.associate(related)`. -/
def hasOneAssociate (owner related : ModelState)
    (foreignKey localKey : String) :
    Except String ModelState × List RelCall :=
  let lkv := Obj.get owner.fields localKey
  if !truthyOpt lkv then
    (.error "Cannot associate relation. The local key value is undefined",
      [])
  else
    let v := ensureObjectId (lkv.getD .vNull)
    (.ok { related with fields := Obj.set related.fields foreignKey v },
      [.saveRelated])

/-- `HasMany.exec()`: empty list on a falsy local key, otherwise all
related documents matching the foreign key. -/
def hasManyExec (st : MStore) (owner : ModelState)
    (foreignKey localKey : String) :
    Except String (List Obj) × List RelCall :=
  let lkv := Obj.get owner.fields localKey
  if !truthyOpt lkv then (.ok [], [])
  else
    let v := ensureObjectId (lkv.getD .vNull)
    (.ok (st.docs.filter (fun d => docMatchesKV d foreignKey v)),
      [.execCall foreignKey v])

/-- `HasMany.save(related)`. -/
def hasManySave (owner related : ModelState)
    (foreignKey localKey : String) :
    Except String ModelState × List RelCall :=
  let lkv := Obj.get owner.fields localKey
  if !truthyOpt lkv then
    (.error "Cannot save relation. The local key value is undefined", [])
  else
    let v := ensureObjectId (lkv.getD .vNull)
    (.ok { related with fields := Obj.set related.fields foreignKey v },
      [.saveRelated])

/-- `HasMany.saveMany(relatedList)`. -/
def hasManySaveMany (owner : ModelState) (relatedList : List ModelState)
    (foreignKey localKey : String) :
    Except String (List ModelState) × List RelCall :=
  let lkv := Obj.get owner.fields localKey
  if !truthyOpt lkv then
    (.error "Cannot save relation. The local key value is undefined", [])
  else
    let v := ensureObjectId (lkv.getD .vNull)
    (.ok (relatedList.map (fun r =>
        { r with fields := Obj.set r.fields foreignKey v })),
      relatedList.map (fun _ => .saveRelated))

/-- `HasMany.create(values)`. -/
def hasManyCreate (owner : ModelState) (values : Obj)
    (foreignKey localKey : String) : Except String Obj × List RelCall :=
  let lkv := Obj.get owner.fields localKey
  if !truthyOpt lkv then
    (.error "Cannot create relation. The local key value is undefined",
      [])
  else
    let v := ensureObjectId (lkv.getD .vNull)
    let doc := Obj.set values foreignKey v
    (.ok doc, [.createRelated doc])

/-- `HasMany.createMany(valuesList)`. -/
def hasManyCreateMany (owner : ModelState) (valuesList : List Obj)
    (foreignKey localKey : String) :
    Except String (List Obj) × List RelCall :=
  let lkv := Obj.get owner.fields localKey
  if !truthyOpt lkv then
    (.error "Cannot create relation. The local key value is undefined",
      [])
  else
    let v := ensureObjectId (lkv.getD .vNull)
    let docs := valuesList.map (fun values => Obj.set values foreignKey v)
    (.ok docs, docs.map (fun d => .createRelated d))

/-- `HasMany.associate(related)`. -/
def hasManyAssociate (owner related : ModelState)
    (foreignKey localKey : String) :
    Except String ModelState × List RelCall :=
  let lkv := Obj.get owner.fields localKey
  if !truthyOpt lkv then
    (.error "Cannot associate relation. The local key value is undefined",
      [])
  else
    let v := ensureObjectId (lkv.getD .vNull)
    (.ok { related with fields := Obj.set related.fields foreignKey v },
      [.saveRelated])

/-- `HasMany.associateMany(relatedList)`. -/
def hasManyAssociateMany (owner : ModelState)
    (relatedList : List ModelState) (foreignKey localKey : String) :
    Except String (List ModelState) × List RelCall :=
  let lkv := Obj.get owner.fields localKey
  if !truthyOpt lkv then
    (.error "Cannot associate relation. The local key value is undefined",
      [])
  else
    let v := ensureObjectId (lkv.getD .vNull)
    (.ok (relatedList.map (fun r =>
        { r with fields := Obj.set r.fields foreignKey v })),
      relatedList.map (fun _ => .saveRelated))

/-- `HasMany.dissociate()`: returns silently on a falsy local key,
otherwise nulls the foreign key on all related documents. -/
def hasManyDissociate (owner : ModelState)
    (foreignKey localKey : String) : Except String Unit × List RelCall :=
  let lkv := Obj.get owner.fields localKey
  if !truthyOpt lkv then (.ok (), [])
  else
    let v := ensureObjectId (lkv.getD .vNull)
    (.ok (), [.updateWhereCall foreignKey v [(foreignKey, .vNull)]])

/-- `HasMany.delete()`: returns silently on a falsy local key. -/
def hasManyDelete (owner : ModelState) (foreignKey localKey : String) :
    Except String Unit × List RelCall :=
  let lkv := Obj.get owner.fields localKey
  if !truthyOpt lkv then (.ok (), [])
  else
    let v := ensureObjectId (lkv.getD .vNull)
    (.ok (), [.deleteWhereCall foreignKey v none])

/-- `HasMany.deleteMany(relatedList)`: guards on an empty list (not on
the local key). -/
def hasManyDeleteMany (relatedList : List ModelState) :
    Except String Unit × List RelCall :=
  if relatedList.length == 0 then (.ok (), [])
  else
    let ids := relatedList.map (fun r => r.pkValue.getD .vNull)
    (.ok (), [.deleteWhereCall "_id" .vNull (some ("_id", ids))])

/-- `BelongsTo.exec()`: guards the *foreign*-key value on the owner. -/
def belongsToExec (st : MStore) (owner : ModelState)
    (foreignKey localKey : String) :
    Except String (Option Obj) × List RelCall :=
  let fkv := Obj.get owner.fields foreignKey
  if !truthyOpt fkv then (.ok none, [])
  else
    let v := ensureObjectId (fkv.getD .vNull)
    (.ok (firstKV st localKey v), [.findByCall localKey v])

/-- `BelongsTo.associate(related)`: guards the related model's local
key, then sets the foreign key on the owner and saves the owner. -/
def belongsToAssociate (owner related : ModelState)
    (foreignKey localKey : String) :
    Except String ModelState × List RelCall :=
  let rkv := Obj.get related.fields localKey
  if !truthyOpt rkv then
    (.error
      "Cannot associate relation. The related model primary key is undefined",
      [])
  else
    let v := ensureObjectId (rkv.getD .vNull)
    (.ok { owner with fields := Obj.set owner.fields foreignKey v },
      [.saveRelated])

/-- `BelongsTo.dissociate()`: no guard; nulls the foreign key on the
owner and saves it. -/
def belongsToDissociate (owner : ModelState) (foreignKey : String) :
    Except String ModelState × List RelCall :=
  (.ok { owner with fields := Obj.set owner.fields foreignKey .vNull },
    [.saveRelated])

/-- `BelongsToMany.exec()`: empty list on a falsy local key; otherwise
pivot lookup then a `whereIn` over the related collection. -/
def btmExec (pst rst : MStore) (owner : ModelState)
    (localKey pivotForeignKey pivotRelatedKey foreignKey : String) :
    Except String (List Obj) × List RelCall :=
  let lkv := Obj.get owner.fields localKey
  if !truthyOpt lkv then (.ok [], [])
  else
    let v := ensureObjectId (lkv.getD .vNull)
    let pivots := pst.docs.filter (fun d =>
      docMatchesKV d pivotForeignKey v)
    if pivots.length == 0 then (.ok [], [.execCall pivotForeignKey v])
    else
      let relatedIds := pivots.map (fun p =>
        (Obj.get p pivotRelatedKey).getD .vNull)
      (.ok (rst.docs.filter (fun d => relatedIds.any (fun i =>
          MValue.beq ((Obj.get d foreignKey).getD .vNull) i))),
        [.execCall pivotForeignKey v,
         .whereInExecCall foreignKey relatedIds])

/-- `BelongsToMany.attach(ids)`. -/
def btmAttach (owner : ModelState) (ids : List MValue)
    (localKey pivotForeignKey pivotRelatedKey : String) :
    Except String Unit × List RelCall :=
  let lkv := Obj.get owner.fields localKey
  if !truthyOpt lkv then
    (.error "Cannot attach relation. The local key value is undefined",
      [])
  else
    let v := ensureObjectId (lkv.getD .vNull)
    let docs := ids.map (fun id =>
      [(pivotForeignKey, v), (pivotRelatedKey, ensureObjectId id)])
    (.ok (), docs.map (fun d => .createRelated d))

/-- `BelongsToMany.attachWithPivotData(data)`. -/
def btmAttachWithPivotData (owner : ModelState)
    (data : List (MValue × Obj))
    (localKey pivotForeignKey pivotRelatedKey : String) :
    Except String Unit × List RelCall :=
  let lkv := Obj.get owner.fields localKey
  if !truthyOpt lkv then
    (.error
      "Cannot attach relation with pivot data. The local key value is undefined",
      [])
  else
    let v := ensureObjectId (lkv.getD .vNull)
    let docs := data.map (fun item =>
      Obj.spread [(pivotForeignKey, v),
        (pivotRelatedKey, ensureObjectId item.1)] item.2)
    (.ok (), docs.map (fun d => .createRelated d))

/-- `BelongsToMany.detach(ids?)`: returns silently on a falsy local
key; otherwise one delete, restricted by `whereIn` when ids given. -/
def btmDetach (owner : ModelState) (ids : Option (List MValue))
    (localKey pivotForeignKey pivotRelatedKey : String) :
    Except String Unit × List RelCall :=
  let lkv := Obj.get owner.fields localKey
  if !truthyOpt lkv then (.ok (), [])
  else
    let v := ensureObjectId (lkv.getD .vNull)
    let restrict :=
      match ids with
      | some l =>
        if l.length > 0 then
          some (pivotRelatedKey, l.map ensureObjectId)
        else none
      | none => none
    (.ok (), [.deleteWhereCall pivotForeignKey v restrict])

/-- `BelongsToMany.exists(id)`: false on a falsy local key. -/
def btmExists (pst : MStore) (owner : ModelState) (id : MValue)
    (localKey pivotForeignKey pivotRelatedKey : String) :
    Except String Bool × List RelCall :=
  let lkv := Obj.get owner.fields localKey
  if !truthyOpt lkv then (.ok false, [])
  else
    let v := ensureObjectId (lkv.getD .vNull)
    let iv := ensureObjectId id
    let count := (pst.docs.filter (fun d =>
      docMatchesKV d pivotForeignKey v &&
      docMatchesKV d pivotRelatedKey iv)).length
    (.ok (decide (0 < count)),
      [.countCall pivotForeignKey v pivotRelatedKey iv])

/-- `BelongsToMany.pivotData(id)`: null on a falsy local key; otherwise
the first pivot record with the two keys stripped. -/
def btmPivotData (pst : MStore) (owner : ModelState) (id : MValue)
    (localKey pivotForeignKey pivotRelatedKey : String) :
    Except String (Option Obj) × List RelCall :=
  let lkv := Obj.get owner.fields localKey
  if !truthyOpt lkv then (.ok none, [])
  else
    let v := ensureObjectId (lkv.getD .vNull)
    let iv := ensureObjectId id
    let call := RelCall.firstPivotCall pivotForeignKey v pivotRelatedKey iv
    match pst.docs.find? (fun d =>
        docMatchesKV d pivotForeignKey v &&
        docMatchesKV d pivotRelatedKey iv) with
    | none => (.ok none, [call])
    | some rec₀ =>
      (.ok (some (rec₀.filter (fun e =>
        !(e.1 == pivotForeignKey) && !(e.1 == pivotRelatedKey)))),
        [call])

/-- `BelongsToMany.updatePivotData(id, data)`. -/
def btmUpdatePivotData (owner : ModelState) (id : MValue) (data : Obj)
    (localKey pivotForeignKey pivotRelatedKey : String) :
    Except String Unit × List RelCall :=
  let lkv := Obj.get owner.fields localKey
  if !truthyOpt lkv then
    (.error "Cannot update pivot data. The local key value is undefined",
      [])
  else
    let v := ensureObjectId (lkv.getD .vNull)
    (.ok (),
      [.updatePivotCall pivotForeignKey v pivotRelatedKey
        (ensureObjectId id) data])

/-- C7's state-machine invariant: a new instance has no primary-key
value; a persisted instance has one. -/
def ModelInv (m : ModelState) : Prop :=
  (m.isNew = true → m.pkValue = none) ∧
  (m.isNew = false → ∃ v, m.pkValue = some v)

/-- Store invariant: every stored document carries a truthy `_id`. -/
def StoreInvId (st : MStore) : Prop :=
  ∀ d ∈ st.docs, truthyOpt (Obj.get d "_id") = true

/-!
## Supporting lemmas
-/

@[simp] theorem Obj.get_set_self (o : Obj) (k : String) (v : MValue) :
    (o.set k v).get k = some v := by
  induction o with
  | nil => simp [Obj.set, Obj.get]
  | cons e rest ih =>
    obtain ⟨k₀, v₀⟩ := e
    by_cases h : k₀ = k
    · subst h; simp [Obj.set, Obj.get]
    · simp [Obj.set, Obj.get, h, ih]

theorem Obj.get_set_ne (o : Obj) (k k' : String) (v : MValue) (h : k' ≠ k) :
    (o.set k v).get k' = o.get k' := by
  induction o with
  | nil => simp [Obj.set, Obj.get, Ne.symm h]
  | cons e rest ih =>
    obtain ⟨k₀, v₀⟩ := e
    by_cases hk : k₀ = k
    · subst hk
      have hne : ¬ k₀ = k' := fun hk' => h hk'.symm
      simp [Obj.set, Obj.get, hne]
    · by_cases hk' : k₀ = k'
      · subst hk'; simp [Obj.set, Obj.get, hk]
      · simp [Obj.set, Obj.get, hk, hk', ih]

/-!
## C5 supporting lemmas: heap frame reasoning
-/

theorem Heap.read_write_ne (h : Heap) {a a' : Nat} (o : HObj)
    (hne : a ≠ a') : (h.write a' o).read a = h.read a := by
  simp only [Heap.write, Heap.read]
  exact List.getElem?_set_ne (Ne.symm hne)

theorem Heap.read_write_self (h : Heap) {a : Nat} (o : HObj)
    (hlt : a < h.cells.length) : (h.write a o).read a = some o := by
  simp only [Heap.write, Heap.read]
  simp [List.getElem?_set_self, hlt]

theorem Heap.length_write (h : Heap) (a : Nat) (o : HObj) :
    (h.write a o).cells.length = h.cells.length := by
  simp [Heap.write]

theorem Heap.read_alloc_lt (h : Heap) (o : HObj) {a : Nat}
    (hlt : a < h.cells.length) : (h.alloc o).1.read a = h.read a := by
  simp only [Heap.alloc, Heap.read]
  exact List.getElem?_append_left hlt

theorem Heap.read_alloc_self (h : Heap) (o : HObj) :
    (h.alloc o).1.read h.cells.length = some o := by
  simp [Heap.alloc, Heap.read]

theorem Heap.length_alloc (h : Heap) (o : HObj) :
    (h.alloc o).1.cells.length = h.cells.length + 1 := by
  simp [Heap.alloc]

theorem Heap.read_lt_length {h : Heap} {a : Nat} {o : HObj}
    (hr : h.read a = some o) : a < h.cells.length := by
  by_contra hnot
  rw [Heap.read, List.getElem?_eq_none (Nat.le_of_not_lt hnot)] at hr
  exact Option.noConfusion hr

theorem refsF_setF : ∀ {fields : List (String × HVal)} {k : String}
    {v : HVal} {a : Nat}, a ∈ refsF (setF fields k v) →
    a ∈ refsF fields ∨ v = .ref a := by
  intro fields
  induction fields with
  | nil =>
    intro k v a h
    cases v with
    | ref r =>
      simp only [setF, refsF] at h
      rcases List.mem_cons.1 h with h | h
      · right; simp [h]
      · simp [refsF] at h
    | hNull => simp [setF, refsF] at h
    | hBool b => simp [setF, refsF] at h
    | hInt n => simp [setF, refsF] at h
    | hStr s => simp [setF, refsF] at h
  | cons e rest ih =>
    intro k v a h
    obtain ⟨k₀, v₀⟩ := e
    by_cases hk : k₀ = k
    · subst hk
      rw [show setF ((k₀, v₀) :: rest) k₀ v = (k₀, v) :: rest by
        simp [setF]] at h
      cases v with
      | ref r =>
        simp only [refsF] at h
        rcases List.mem_cons.1 h with h | h
        · right; simp [h]
        · left
          cases v₀ with
          | ref r₀ => exact List.mem_cons_of_mem _ h
          | hNull => exact h
          | hBool b => exact h
          | hInt n => exact h
          | hStr st => exact h
      | hNull =>
        left
        cases v₀ with
        | ref r₀ => exact List.mem_cons_of_mem _ (by simpa [refsF] using h)
        | hNull => simpa [refsF] using h
        | hBool b => simpa [refsF] using h
        | hInt n => simpa [refsF] using h
        | hStr st => simpa [refsF] using h
      | hBool bb =>
        left
        cases v₀ with
        | ref r₀ => exact List.mem_cons_of_mem _ (by simpa [refsF] using h)
        | hNull => simpa [refsF] using h
        | hBool b => simpa [refsF] using h
        | hInt n => simpa [refsF] using h
        | hStr st => simpa [refsF] using h
      | hInt nn =>
        left
        cases v₀ with
        | ref r₀ => exact List.mem_cons_of_mem _ (by simpa [refsF] using h)
        | hNull => simpa [refsF] using h
        | hBool b => simpa [refsF] using h
        | hInt n => simpa [refsF] using h
        | hStr st => simpa [refsF] using h
      | hStr ss =>
        left
        cases v₀ with
        | ref r₀ => exact List.mem_cons_of_mem _ (by simpa [refsF] using h)
        | hNull => simpa [refsF] using h
        | hBool b => simpa [refsF] using h
        | hInt n => simpa [refsF] using h
        | hStr st => simpa [refsF] using h
    · rw [show setF ((k₀, v₀) :: rest) k v = (k₀, v₀) :: setF rest k v by
        simp [setF, hk]] at h
      cases v₀ with
      | ref r₀ =>
        simp only [refsF] at h ⊢
        rcases List.mem_cons.1 h with h | h
        · left; exact List.mem_cons.2 (Or.inl h)
        · rcases ih h with hin | hv
          · left; exact List.mem_cons.2 (Or.inr hin)
          · right; exact hv
      | hNull =>
        simp only [refsF] at h ⊢
        exact ih h
      | hBool b =>
        simp only [refsF] at h ⊢
        exact ih h
      | hInt n =>
        simp only [refsF] at h ⊢
        exact ih h
      | hStr st =>
        simp only [refsF] at h ⊢
        exact ih h

theorem prim_toHVal_ne_ref (p : PrimVal) (a : Nat) :
    PrimVal.toHVal p ≠ .ref a := by
  cases p <;> simp [PrimVal.toHVal]

theorem getF_ref_mem_refsF : ∀ {fields : List (String × HVal)} {k : String}
    {a : Nat}, getF fields k = some (.ref a) → a ∈ refsF fields := by
  intro fields
  induction fields with
  | nil => intro k a h; simp [getF] at h
  | cons e rest ih =>
    intro k a h
    obtain ⟨k₀, v₀⟩ := e
    by_cases hk : k₀ = k
    · subst hk
      simp only [getF, beq_self_eq_true, if_true, Option.some_inj] at h
      subst h
      simp [refsF]
    · simp only [getF, hk, if_false, beq_iff_eq] at h
      cases v₀ with
      | ref r => simp only [refsF]; exact List.mem_cons_of_mem _ (ih h)
      | hNull => simp only [refsF]; exact ih h
      | hBool b => simp only [refsF]; exact ih h
      | hInt n => simp only [refsF]; exact ih h
      | hStr st => simp only [refsF]; exact ih h

theorem hMergeOperator_refs {f : List (String × HVal)} {op : String}
    {v : HVal} {merged : List (String × HVal)}
    (h : hMergeOperator f op v = some merged) :
    ∀ a ∈ refsF merged, a ∈ refsF f ∨ v = .ref a := by
  intro a ha
  unfold hMergeOperator at h
  split at h <;>
    first
    | exact Option.noConfusion h
    | · rw [Option.some_inj] at h
        subst h
        rcases refsF_setF ha with hin | hv
        · left; exact hin
        · right; exact hv
    | · rw [Option.some_inj] at h
        subst h
        rcases refsF_setF ha with hin | hv
        · rcases refsF_setF hin with hin₂ | hv₂
          · left; exact hin₂
          · right; exact hv₂
        · exact absurd hv (by simp)

theorem rootRefs_of_read_obj {h : Heap} {r : Nat}
    {fields : List (String × HVal)} (hr : h.read r = some (.obj fields)) :
    rootRefs h r = refsF fields := by
  simp [rootRefs, hr]

theorem writeRootField_read_ne (h : Heap) (b : HQueryBuilder)
    (k : String) (v : HVal) {obs : Nat} (hne : obs ≠ b.filterRef) :
    (writeRootField h b k v).read obs = h.read obs := by
  unfold writeRootField
  split <;> first
  | rfl
  | exact Heap.read_write_ne _ _ hne

theorem writeRootField_length (h : Heap) (b : HQueryBuilder)
    (k : String) (v : HVal) :
    (writeRootField h b k v).cells.length = h.cells.length := by
  unfold writeRootField
  split <;> simp [Heap.length_write]

theorem writeRootField_refs (h : Heap) (b : HQueryBuilder)
    (k : String) (v : HVal) :
    ∀ a ∈ rootRefs (writeRootField h b k v) b.filterRef,
      a ∈ rootRefs h b.filterRef ∨ v = .ref a := by
  intro a ha
  unfold writeRootField at ha
  rcases hr : h.read b.filterRef with _ | o
  · rw [hr] at ha
    left; exact ha
  · cases o with
    | obj fields =>
      rw [hr] at ha
      have hlt : b.filterRef < h.cells.length := Heap.read_lt_length hr
      rw [rootRefs_of_read_obj
        (Heap.read_write_self h _ (by simpa [Heap.write] using hlt))] at ha
      rcases refsF_setF ha with hin | hv
      · left; rwa [rootRefs_of_read_obj hr]
      · right; exact hv
    | arr items =>
      rw [hr] at ha
      left; exact ha

theorem writeRootField_frame {h : Heap} {b : HQueryBuilder} {obs : Nat}
    (hinv : FrameInv h b obs) (k : String) (v : HVal)
    (hv : ∀ a, v = .ref a → a ≠ obs) :
    (writeRootField h b k v).read obs = h.read obs ∧
    FrameInv (writeRootField h b k v) b obs := by
  obtain ⟨h1, h2, h3, h4⟩ := hinv
  refine ⟨writeRootField_read_ne h b k v h3, ?_, ?_, h3, ?_⟩
  · rw [writeRootField_length]; exact h1
  · rw [writeRootField_length]; exact h2
  · intro a ha
    rcases writeRootField_refs h b k v a ha with hin | hr
    · exact h4 a hin
    · exact hv a hr

theorem hWhereKV_frame {h : Heap} {b : HQueryBuilder} {obs : Nat}
    (hinv : FrameInv h b obs) (key : String) (v : PrimVal) :
    (hWhereKV h b key v).1.read obs = h.read obs ∧
    (hWhereKV h b key v).2 = b ∧
    FrameInv (hWhereKV h b key v).1 b obs := by
  have := writeRootField_frame hinv key v.toHVal
    (fun a ha => absurd ha (prim_toHVal_ne_ref v a))
  exact ⟨this.1, rfl, this.2⟩

theorem hWhereCreate_frame {h : Heap} {b : HQueryBuilder} {obs : Nat}
    (hinv : FrameInv h b obs) (key operator : String) (v : PrimVal) :
    (hWhereCreate h b key operator v).1.read obs = h.read obs ∧
    (hWhereCreate h b key operator v).2 = b ∧
    FrameInv (hWhereCreate h b key operator v).1 b obs := by
  obtain ⟨h1, h2, h3, h4⟩ := hinv
  unfold hWhereCreate
  by_cases hop : (operator == "=") = true
  · simp only [hop, if_true]
    have := writeRootField_frame ⟨h1, h2, h3, h4⟩ key (PrimVal.toHVal v)
      (fun a ha => absurd ha (prim_toHVal_ne_ref v a))
    exact ⟨this.1, by trivial, this.2⟩
  · simp only [hop, Bool.false_eq_true, if_false]
    have halloc2 :
        (h.alloc (.obj (hFreshCondition operator v.toHVal))).2 =
          h.cells.length := rfl
    rw [halloc2]
    have hinv₁ : FrameInv
        (h.alloc (.obj (hFreshCondition operator v.toHVal))).1 b obs := by
      refine ⟨?_, ?_, h3, ?_⟩
      · rw [Heap.length_alloc]; omega
      · rw [Heap.length_alloc]; omega
      · intro a ha
        rw [rootRefs, Heap.read_alloc_lt _ _ h2] at ha
        rcases hr : h.read b.filterRef with _ | o
        · rw [hr] at ha; simp at ha
        · rw [hr] at ha
          cases o with
          | obj fields =>
            exact h4 a (by rwa [rootRefs_of_read_obj hr])
          | arr items => simp at ha
    have hframe := writeRootField_frame hinv₁ key
      (.ref h.cells.length) (fun a ha => by
        rw [HVal.ref.injEq] at ha
        omega)
    constructor
    · rw [hframe.1, Heap.read_alloc_lt _ _ h1]
    · exact ⟨by trivial, hframe.2⟩

theorem hWhereOp_frame {h : Heap} {b : HQueryBuilder} {obs : Nat}
    (hinv : FrameInv h b obs) (key operator : String) (v : PrimVal) :
    (hWhereOp h b key operator v).1.read obs = h.read obs ∧
    (hWhereOp h b key operator v).2 = b ∧
    FrameInv (hWhereOp h b key operator v).1 b obs := by
  obtain ⟨h1, h2, h3, h4⟩ := hinv
  unfold hWhereOp
  rcases hr : h.read b.filterRef with _ | o
  · simp only [hr, getF]
    exact hWhereCreate_frame ⟨h1, h2, h3, h4⟩ key operator v
  · cases o with
    | arr items =>
      simp only [hr, getF]
      exact hWhereCreate_frame ⟨h1, h2, h3, h4⟩ key operator v
    | obj fields =>
      simp only [hr]
      rcases hg : getF fields key with _ | w
      · exact hWhereCreate_frame ⟨h1, h2, h3, h4⟩ key operator v
      · cases w with
        | hNull => exact hWhereCreate_frame ⟨h1, h2, h3, h4⟩ key operator v
        | hBool bb =>
          exact hWhereCreate_frame ⟨h1, h2, h3, h4⟩ key operator v
        | hInt n => exact hWhereCreate_frame ⟨h1, h2, h3, h4⟩ key operator v
        | hStr st =>
          exact hWhereCreate_frame ⟨h1, h2, h3, h4⟩ key operator v
        | ref a =>
          have hamem : a ∈ rootRefs h b.filterRef := by
            rw [rootRefs_of_read_obj hr]
            exact getF_ref_mem_refsF hg
          have hane : a ≠ obs := h4 a hamem
          rcases hra : h.read a with _ | oa
          · simp only [hra]
            exact hWhereCreate_frame ⟨h1, h2, h3, h4⟩ key operator v
          · cases oa with
            | arr items =>
              simp only [hra]
              exact hWhereCreate_frame ⟨h1, h2, h3, h4⟩ key operator v
            | obj condFields =>
              simp only [hra]
              rcases hm : hMergeOperator condFields operator v.toHVal
                with _ | merged
              · simp only [hm]
                have := writeRootField_frame ⟨h1, h2, h3, h4⟩ key
                  (PrimVal.toHVal v)
                  (fun x hx => absurd hx (prim_toHVal_ne_ref v x))
                exact ⟨this.1, by trivial, this.2⟩
              · simp only [hm]
                refine ⟨Heap.read_write_ne _ _ (Ne.symm hane), by trivial,
                  ?_, ?_, h3, ?_⟩
                · rw [Heap.length_write]; exact h1
                · rw [Heap.length_write]; exact h2
                · intro x hx
                  by_cases hab : a = b.filterRef
                  · subst hab
                    have hcond : condFields = fields := by
                      rw [hr] at hra
                      exact (HObj.obj.inj (Option.some_inj.1 hra)).symm
                    rw [rootRefs_of_read_obj
                      (Heap.read_write_self h _
                        (Heap.read_lt_length hr))] at hx
                    rcases hMergeOperator_refs hm x hx with hin | hvx
                    · refine h4 x ?_
                      rw [rootRefs_of_read_obj hr, ← hcond]
                      exact hin
                    · exact absurd hvx (by
                        intro hc
                        exact prim_toHVal_ne_ref v x hc)
                  · rw [rootRefs, Heap.read_write_ne _ _
                      (fun he => hab he.symm), hr] at hx
                    exact h4 x (by rwa [rootRefs_of_read_obj hr])

theorem rootRefs_congr {h h' : Heap} {r : Nat}
    (he : h'.read r = h.read r) : rootRefs h' r = rootRefs h r := by
  unfold rootRefs
  rw [he]

theorem preOrSubRef_eq (h : Heap) (b : HQueryBuilder) :
    preOrSubRef h b = h.cells.length + 1 := by
  simp [preOrSubRef, Heap.length_alloc]

theorem preOrHeap_length (h : Heap) (b : HQueryBuilder) :
    (preOrHeap h b).cells.length = h.cells.length + 2 := by
  simp [preOrHeap, Heap.length_alloc]

theorem preOrHeap_read_lt (h : Heap) (b : HQueryBuilder) {x : Nat}
    (hx : x < h.cells.length) : (preOrHeap h b).read x = h.read x := by
  rw [preOrHeap,
    Heap.read_alloc_lt _ _ (by rw [Heap.length_alloc]; omega),
    Heap.read_alloc_lt _ _ hx]

theorem preOrHeap_read_sub (h : Heap) (b : HQueryBuilder) :
    (preOrHeap h b).read (preOrSubRef h b) = some (.obj []) := by
  rw [preOrHeap, preOrSubRef]
  exact Heap.read_alloc_self _ _

theorem hOrWhereSub_frame (h : Heap) (b : HQueryBuilder) (key : String)
    (operator : Option String) (v : PrimVal) {x : Nat}
    (hx : x < h.cells.length) :
    (hOrWhereSub h b key operator v).1.read x = h.read x ∧
    x < (hOrWhereSub h b key operator v).1.cells.length ∧
    (hOrWhereSub h b key operator v).2 = h.cells.length + 1 ∧
    (hOrWhereSub h b key operator v).2 <
      (hOrWhereSub h b key operator v).1.cells.length := by
  have hinv : FrameInv (preOrHeap h b)
      { b with filterRef := preOrSubRef h b } x := by
    refine ⟨?_, ?_, ?_, ?_⟩
    · rw [preOrHeap_length]; omega
    · show preOrSubRef h b < (preOrHeap h b).cells.length
      rw [preOrSubRef_eq, preOrHeap_length]; omega
    · show x ≠ preOrSubRef h b
      rw [preOrSubRef_eq]; omega
    · show ∀ a ∈ rootRefs (preOrHeap h b) (preOrSubRef h b), a ≠ x
      intro a ha
      rw [rootRefs_of_read_obj (preOrHeap_read_sub h b)] at ha
      simp [refsF] at ha
  cases operator with
  | none =>
    obtain ⟨hread, _, hlt1, hlt2, _, _⟩ := hWhereKV_frame hinv key v
    exact ⟨by rw [show (hOrWhereSub h b key none v).1 =
        (hWhereKV (preOrHeap h b)
          { b with filterRef := preOrSubRef h b } key v).1 from rfl,
        hread, preOrHeap_read_lt h b hx],
      hlt1, preOrSubRef_eq h b, hlt2⟩
  | some op =>
    obtain ⟨hread, _, hlt1, hlt2, _, _⟩ := hWhereOp_frame hinv key op v
    exact ⟨by rw [show (hOrWhereSub h b key (some op) v).1 =
        (hWhereOp (preOrHeap h b)
          { b with filterRef := preOrSubRef h b } key op v).1 from rfl,
        hread, preOrHeap_read_lt h b hx],
      hlt1, preOrSubRef_eq h b, hlt2⟩

theorem orPushCreate_frame {h : Heap} {b : HQueryBuilder} {obs : Nat}
    (hinv : FrameInv h b obs) (subRef : Nat) :
    ((writeRootField (h.alloc (.arr [])).1 b "$or"
        (.ref (h.alloc (.arr [])).2)).write (h.alloc (.arr [])).2
        (.arr [.ref subRef])).read obs = h.read obs ∧
    FrameInv ((writeRootField (h.alloc (.arr [])).1 b "$or"
        (.ref (h.alloc (.arr [])).2)).write (h.alloc (.arr [])).2
        (.arr [.ref subRef])) b obs := by
  obtain ⟨h1, h2, h3, h4⟩ := hinv
  have hA : (h.alloc (HObj.arr [])).2 = h.cells.length := rfl
  have hinv₄ : FrameInv (h.alloc (.arr [])).1 b obs := by
    refine ⟨?_, ?_, h3, ?_⟩
    · rw [Heap.length_alloc]; omega
    · rw [Heap.length_alloc]; omega
    · intro a ha
      rw [rootRefs_congr (Heap.read_alloc_lt _ _ h2)] at ha
      exact h4 a ha
  have hwrf := writeRootField_frame hinv₄ "$or"
    (.ref (h.alloc (.arr [])).2)
    (fun a ha => by
      rw [hA] at ha
      rw [HVal.ref.injEq] at ha
      omega)
  obtain ⟨j1, j2, j3, j4⟩ := hwrf.2
  constructor
  · rw [Heap.read_write_ne _ _ (by rw [hA]; omega), hwrf.1,
      Heap.read_alloc_lt _ _ h1]
  · refine ⟨?_, ?_, h3, ?_⟩
    · rw [Heap.length_write]; exact j1
    · rw [Heap.length_write]; exact j2
    · intro a ha
      rw [rootRefs_congr (Heap.read_write_ne _ _ (by rw [hA]; omega))] at ha
      exact j4 a ha

theorem hOrWherePush_frame {h : Heap} {b : HQueryBuilder} {obs : Nat}
    (hinv : FrameInv h b obs) (subRef : Nat) :
    (hOrWherePush h b subRef).read obs = h.read obs ∧
    FrameInv (hOrWherePush h b subRef) b obs := by
  obtain ⟨h1, h2, h3, h4⟩ := hinv
  unfold hOrWherePush
  rcases hr : h.read b.filterRef with _ | o
  · simp only [hr, getF]
    exact orPushCreate_frame ⟨h1, h2, h3, h4⟩ subRef
  · cases o with
    | arr items =>
      simp only [hr, getF]
      exact orPushCreate_frame ⟨h1, h2, h3, h4⟩ subRef
    | obj fields =>
      simp only [hr]
      rcases hg : getF fields "$or" with _ | w
      · exact orPushCreate_frame ⟨h1, h2, h3, h4⟩ subRef
      · cases w with
        | hNull => exact orPushCreate_frame ⟨h1, h2, h3, h4⟩ subRef
        | hBool bb => exact orPushCreate_frame ⟨h1, h2, h3, h4⟩ subRef
        | hInt n => exact orPushCreate_frame ⟨h1, h2, h3, h4⟩ subRef
        | hStr st => exact orPushCreate_frame ⟨h1, h2, h3, h4⟩ subRef
        | ref a =>
          have hamem : a ∈ rootRefs h b.filterRef := by
            rw [rootRefs_of_read_obj hr]
            exact getF_ref_mem_refsF hg
          have hane : a ≠ obs := h4 a hamem
          rcases hra : h.read a with _ | oa
          · simp only [hra]
            exact ⟨by trivial, h1, h2, h3, h4⟩
          · cases oa with
            | obj f2 =>
              simp only [hra]
              exact ⟨by trivial, h1, h2, h3, h4⟩
            | arr items =>
              simp only [hra]
              have hab : a ≠ b.filterRef := by
                intro he
                rw [he, hr] at hra
                exact HObj.noConfusion (Option.some_inj.1 hra)
              refine ⟨Heap.read_write_ne _ _ (Ne.symm hane), ?_, ?_, h3,
                ?_⟩
              · rw [Heap.length_write]; exact h1
              · rw [Heap.length_write]; exact h2
              · intro x hx
                rw [rootRefs_congr
                  (Heap.read_write_ne _ _ (Ne.symm hab))] at hx
                exact h4 x hx

theorem hOrWhere_frame {h : Heap} {b : HQueryBuilder} {obs : Nat}
    (hinv : FrameInv h b obs) (key : String) (operator : Option String)
    (v : PrimVal) :
    (hOrWhere h b key operator v).1.read obs = h.read obs ∧
    (hOrWhere h b key operator v).2 = b ∧
    FrameInv (hOrWhere h b key operator v).1 b obs := by
  obtain ⟨h1, h2, h3, h4⟩ := hinv
  have hsObs := hOrWhereSub_frame h b key operator v h1
  have hsRoot := hOrWhereSub_frame h b key operator v h2
  have hinv₃ : FrameInv (hOrWhereSub h b key operator v).1 b obs := by
    refine ⟨hsObs.2.1, hsRoot.2.1, h3, ?_⟩
    intro a ha
    rw [rootRefs_congr hsRoot.1] at ha
    exact h4 a ha
  have hpush := hOrWherePush_frame hinv₃ (hOrWhereSub h b key operator v).2
  refine ⟨?_, rfl, hpush.2⟩
  show (hOrWherePush (hOrWhereSub h b key operator v).1 b
    (hOrWhereSub h b key operator v).2).read obs = h.read obs
  rw [hpush.1, hsObs.1]

theorem applyOp_frame {h : Heap} {b : HQueryBuilder} {obs : Nat}
    (hinv : FrameInv h b obs) (op : BOp) :
    (applyOp h b op).1.read obs = h.read obs ∧
    (applyOp h b op).2.filterRef = b.filterRef ∧
    FrameInv (applyOp h b op).1 (applyOp h b op).2 obs := by
  obtain ⟨h1, h2, h3, h4⟩ := hinv
  cases op with
  | opWhereKV key v =>
    obtain ⟨ha, hb, hc⟩ := hWhereKV_frame ⟨h1, h2, h3, h4⟩ key v
    refine ⟨ha, ?_, ?_⟩
    · show (hWhereKV h b key v).2.filterRef = b.filterRef
      rw [hb]
    · show FrameInv (hWhereKV h b key v).1 (hWhereKV h b key v).2 obs
      rw [hb]; exact hc
  | opWhereOp key operator v =>
    obtain ⟨ha, hb, hc⟩ := hWhereOp_frame ⟨h1, h2, h3, h4⟩ key operator v
    refine ⟨ha, ?_, ?_⟩
    · show (hWhereOp h b key operator v).2.filterRef = b.filterRef
      rw [hb]
    · show FrameInv (hWhereOp h b key operator v).1
        (hWhereOp h b key operator v).2 obs
      rw [hb]; exact hc
  | opOrWhereKV key v =>
    obtain ⟨ha, hb, hc⟩ := hOrWhere_frame ⟨h1, h2, h3, h4⟩ key none v
    refine ⟨ha, ?_, ?_⟩
    · show (hOrWhere h b key none v).2.filterRef = b.filterRef
      rw [hb]
    · show FrameInv (hOrWhere h b key none v).1
        (hOrWhere h b key none v).2 obs
      rw [hb]; exact hc
  | opOrWhereOp key operator v =>
    obtain ⟨ha, hb, hc⟩ :=
      hOrWhere_frame ⟨h1, h2, h3, h4⟩ key (some operator) v
    refine ⟨ha, ?_, ?_⟩
    · show (hOrWhere h b key (some operator) v).2.filterRef = b.filterRef
      rw [hb]
    · show FrameInv (hOrWhere h b key (some operator) v).1
        (hOrWhere h b key (some operator) v).2 obs
      rw [hb]; exact hc
  | opSelect fields => exact ⟨rfl, rfl, h1, h2, h3, h4⟩
  | opOrderBy field direction => exact ⟨rfl, rfl, h1, h2, h3, h4⟩
  | opLimit n => exact ⟨rfl, rfl, h1, h2, h3, h4⟩
  | opOffset n => exact ⟨rfl, rfl, h1, h2, h3, h4⟩

theorem applyOps_frame : ∀ (ops : List BOp) (h : Heap)
    (b : HQueryBuilder) (obs : Nat), FrameInv h b obs →
    (applyOps h b ops).1.read obs = h.read obs := by
  intro ops
  induction ops with
  | nil => intro h b obs _; rfl
  | cons op rest ih =>
    intro h b obs hinv
    obtain ⟨ha, hb, hc⟩ := applyOp_frame hinv op
    show (applyOps (applyOp h b op).1 (applyOp h b op).2 rest).1.read obs =
      h.read obs
    rw [ih _ _ _ hc, ha]

/-!
## C6 supporting lemmas
-/

theorem Obj.get_mem {o : Obj} {k : String} {v : MValue}
    (h : Obj.get o k = some v) : (k, v) ∈ o := by
  induction o with
  | nil => simp [Obj.get] at h
  | cons e rest ih =>
    obtain ⟨k₀, v₀⟩ := e
    by_cases hk : k₀ = k
    · subst hk
      simp [Obj.get] at h
      simp [h]
    · simp [Obj.get, hk] at h
      exact List.mem_cons_of_mem _ (ih h)

theorem Obj.all_of_get {o : Obj} {k : String} {v : MValue}
    {p : String × MValue → Bool} (hall : o.all p = true)
    (h : Obj.get o k = some v) : p (k, v) = true :=
  (List.all_eq_true.1 hall) _ (Obj.get_mem h)

theorem List.all_mono {α : Type} {p q : α → Bool} {l : List α}
    (h : l.all p = true) (hpq : ∀ a, p a = true → q a = true) :
    l.all q = true :=
  List.all_eq_true.2 (fun a ha => hpq a ((List.all_eq_true.1 h) a ha))

theorem Obj.set_all_of_all {o : Obj} {k : String} {v : MValue}
    {p : String × MValue → Bool} (hall : o.all p = true)
    (hv : p (k, v) = true) : (Obj.set o k v).all p = true := by
  induction o with
  | nil => simp [Obj.set, hv]
  | cons e rest ih =>
    obtain ⟨k₀, v₀⟩ := e
    simp only [List.all_cons, Bool.and_eq_true] at hall
    by_cases hk : k₀ = k
    · subst hk
      simp [Obj.set, hv, hall.2]
    · simp [Obj.set, hk, hall.1, ih hall.2]

theorem Obj.set_all_of_nodup {o : Obj} {k : String} {v : MValue}
    {p : String × MValue → Bool}
    (hnd : keysNodup (o.map Prod.fst) = true)
    (hall : o.all (fun e => e.1 == k || p e) = true)
    (hv : p (k, v) = true) : (Obj.set o k v).all p = true := by
  induction o with
  | nil => simp [Obj.set, hv]
  | cons e rest ih =>
    obtain ⟨k₀, v₀⟩ := e
    simp only [List.map_cons, keysNodup, Bool.and_eq_true] at hnd
    simp only [List.all_cons, Bool.and_eq_true] at hall
    by_cases hk : k₀ = k
    · subst hk
      have hrest : rest.all p = true := by
        refine List.all_eq_true.2 (fun e he => ?_)
        have hne := (List.all_eq_true.1 hnd.1) _ (List.mem_map_of_mem Prod.fst he)
        have := (List.all_eq_true.1 hall.2) _ he
        simp only [Bool.or_eq_true] at this
        rcases this with h | h
        · exact absurd (by simpa using h) (by simpa using hne)
        · exact h
      simp [Obj.set, hv, hrest]
    · have hhead : p (k₀, v₀) = true := by
        have := hall.1
        simp only [Bool.or_eq_true] at this
        rcases this with h | h
        · exact absurd (by simpa using h) hk
        · exact h
      simp [Obj.set, hk, hhead, ih hnd.2 hall.2]

theorem regexFreeEntries_of_all {o : Obj}
    (h : o.all (fun e => regexFreeValue e.2) = true) :
    regexFreeEntries o = true := by
  induction o with
  | nil => simp [regexFreeEntries]
  | cons e rest ih =>
    simp only [List.all_cons, Bool.and_eq_true] at h
    simp [regexFreeEntries, h.1, ih h.2]

theorem shapeEntries_of_all {o : Obj}
    (h : o.all (fun e =>
      e.1 != "$and" && e.1 != "$or" && shapeValue e.2) = true) :
    shapeEntries o = true := by
  induction o with
  | nil => simp [shapeEntries]
  | cons e rest ih =>
    obtain ⟨k, v⟩ := e
    simp only [List.all_cons, Bool.and_eq_true] at h
    have h4 := h.2
    have h1 := h.1.1.1
    have h2 := h.1.1.2
    have h3 := h.1.2
    have hk : (k == "$and" || k == "$or") = false := by
      simp [bne_iff_ne.mp h1, bne_iff_ne.mp h2]
    cases v <;>
      simp only [shapeEntries, hk, Bool.false_eq_true, if_false,
        Bool.and_eq_true] <;>
      exact ⟨h3, ih h4⟩

theorem regexFreeEntries_get {o : Obj} {k : String} {v : MValue}
    (hfree : regexFreeEntries o = true) (h : Obj.get o k = some v) :
    regexFreeValue v = true := by
  induction o with
  | nil => simp [Obj.get] at h
  | cons e rest ih =>
    obtain ⟨k₀, v₀⟩ := e
    simp only [regexFreeEntries, Bool.and_eq_true] at hfree
    by_cases hk : k₀ = k
    · subst hk
      simp [Obj.get] at h
      exact h ▸ hfree.1
    · simp [Obj.get, hk] at h
      exact ih hfree.2 h

/-- The spec-side rewrite is the identity on regex-free values. -/
theorem specRewriteIdAux : ∀ n : Nat,
    (∀ v : MValue, sizeOf v < n → regexFreeValue v = true →
      specRewriteValue v = v) ∧
    (∀ o : Obj, sizeOf o < n → regexFreeEntries o = true →
      specRewriteEntries o = o) ∧
    (∀ xs : List MValue, sizeOf xs < n → regexFreeList xs = true →
      specRewriteList xs = xs) := by
  intro n
  induction n with
  | zero =>
    exact ⟨fun v h => absurd h (Nat.not_lt_zero _),
      fun o h => absurd h (Nat.not_lt_zero _),
      fun xs h => absurd h (Nat.not_lt_zero _)⟩
  | succ n ih =>
    obtain ⟨ihV, ihE, ihL⟩ := ih
    refine ⟨?_, ?_, ?_⟩
    · intro v hsz hfree
      cases v with
      | vNull => simp [specRewriteValue]
      | vBool b => simp [specRewriteValue]
      | vInt m => simp [specRewriteValue]
      | vStr s => simp [specRewriteValue]
      | vId s => simp [specRewriteValue]
      | vRegex s f => simp [regexFreeValue] at hfree
      | vArr xs =>
        simp only [regexFreeValue] at hfree
        have hxs : specRewriteList xs = xs :=
          ihL xs (by simp at hsz; omega) hfree
        simp [specRewriteValue, hxs]
      | vObj fields =>
        simp only [regexFreeValue] at hfree
        have hrec : specRewriteEntries fields = fields :=
          ihE fields (by simp at hsz; omega) hfree
        rcases hget : Obj.get fields "$regex" with _ | w
        · simp [specRewriteValue, hget, hrec]
        · have hw := regexFreeEntries_get hfree hget
          cases w with
          | vRegex s f => simp [regexFreeValue] at hw
          | vNull => simp [specRewriteValue, hget, hrec]
          | vBool b => simp [specRewriteValue, hget, hrec]
          | vInt m => simp [specRewriteValue, hget, hrec]
          | vStr s => simp [specRewriteValue, hget, hrec]
          | vId s => simp [specRewriteValue, hget, hrec]
          | vArr ys => simp [specRewriteValue, hget, hrec]
          | vObj fs => simp [specRewriteValue, hget, hrec]
    · intro o hsz hfree
      cases o with
      | nil => simp [specRewriteEntries]
      | cons e rest =>
        obtain ⟨k, v⟩ := e
        simp only [regexFreeEntries, Bool.and_eq_true] at hfree
        have h1 : specRewriteValue v = v :=
          ihV v (by simp at hsz; omega) hfree.1
        have h2 : specRewriteEntries rest = rest :=
          ihE rest (by simp at hsz; omega) hfree.2
        simp [specRewriteEntries, h1, h2]
    · intro xs hsz hfree
      cases xs with
      | nil => simp [specRewriteList]
      | cons x rest =>
        simp only [regexFreeList, Bool.and_eq_true] at hfree
        have h1 : specRewriteValue x = x :=
          ihV x (by simp at hsz; omega) hfree.1
        have h2 : specRewriteList rest = rest :=
          ihL rest (by simp at hsz; omega) hfree.2
        simp [specRewriteList, h1, h2]

theorem specRewriteValue_id {v : MValue} (h : regexFreeValue v = true) :
    specRewriteValue v = v :=
  (specRewriteIdAux (sizeOf v + 1)).1 v (Nat.lt_succ_self _) h

theorem specRewriteEntries_id {o : Obj} (h : regexFreeEntries o = true) :
    specRewriteEntries o = o :=
  (specRewriteIdAux (sizeOf o + 1)).2.1 o (Nat.lt_succ_self _) h

theorem specRewriteList_id {xs : List MValue} (h : regexFreeList xs = true) :
    specRewriteList xs = xs :=
  (specRewriteIdAux (sizeOf xs + 1)).2.2 xs (Nat.lt_succ_self _) h

/-- `processMongoQuery` and the spec-side store-native rewrite agree on the
`good*` class of raw filter objects. -/
theorem processSpecAgreeAux : ∀ n : Nat,
    (∀ o : Obj, sizeOf o < n → goodEntries o = true →
      processEntries o = specRewriteEntries o) ∧
    (∀ v : MValue, sizeOf v < n → goodValue v = true →
      processPlainValue v = specRewriteValue v) ∧
    (∀ xs : List MValue, sizeOf xs < n → goodItems xs = true →
      processItems xs = specRewriteList xs) := by
  intro n
  induction n with
  | zero =>
    exact ⟨fun o h => absurd h (Nat.not_lt_zero _),
      fun v h => absurd h (Nat.not_lt_zero _),
      fun xs h => absurd h (Nat.not_lt_zero _)⟩
  | succ n ih =>
    obtain ⟨ihE, ihV, ihI⟩ := ih
    refine ⟨?_, ?_, ?_⟩
    · intro o hsz hgood
      cases o with
      | nil => simp [processEntries, specRewriteEntries]
      | cons e rest =>
        obtain ⟨k, v⟩ := e
        by_cases hk : (k == "$and" || k == "$or") = true
        · cases v with
          | vArr items =>
            simp only [goodEntries, hk, if_true, Bool.and_eq_true] at hgood
            have hhead : processItems items = specRewriteList items :=
              ihI items (by simp at hsz; omega) hgood.1
            have hrest : processEntries rest = specRewriteEntries rest :=
              ihE rest (by simp at hsz; omega) hgood.2
            simp [processEntries, specRewriteEntries, processValue, hk,
              specRewriteValue, hhead, hrest]
          | vNull => simp [goodEntries, hk] at hgood
          | vBool b => simp [goodEntries, hk] at hgood
          | vInt m => simp [goodEntries, hk] at hgood
          | vStr s => simp [goodEntries, hk] at hgood
          | vId s => simp [goodEntries, hk] at hgood
          | vRegex s f => simp [goodEntries, hk] at hgood
          | vObj fs => simp [goodEntries, hk] at hgood
        · have hkf : (k == "$and" || k == "$or") = false := by
            simpa using hk
          have hgood' : goodValue v = true ∧ goodEntries rest = true := by
            cases v <;>
              (simp only [goodEntries, hkf, Bool.false_eq_true, if_false,
                Bool.and_eq_true] at hgood; exact hgood)
          have hhead : processPlainValue v = specRewriteValue v :=
            ihV v (by simp at hsz; omega) hgood'.1
          have hrest : processEntries rest = specRewriteEntries rest :=
            ihE rest (by simp at hsz; omega) hgood'.2
          have hpv : processValue k v = processPlainValue v := by
            cases v <;> simp [processValue, hkf]
          simp [processEntries, specRewriteEntries, hpv, hhead, hrest]
    · intro v hsz hgood
      cases v with
      | vNull => simp [processPlainValue, specRewriteValue]
      | vBool b => simp [processPlainValue, specRewriteValue]
      | vInt m => simp [processPlainValue, specRewriteValue]
      | vStr s => simp [processPlainValue, specRewriteValue]
      | vId s => simp [processPlainValue, specRewriteValue]
      | vRegex s f => simp [processPlainValue, specRewriteValue]
      | vArr xs =>
        simp only [goodValue] at hgood
        have hxs : specRewriteList xs = xs := specRewriteList_id hgood
        simp [processPlainValue, specRewriteValue, hxs]
      | vObj fields =>
        rcases hget : Obj.get fields "$regex" with _ | w
        · simp only [goodValue, hget] at hgood
          have hrec : processEntries fields = specRewriteEntries fields :=
            ihE fields (by simp at hsz; omega) hgood
          simp [processPlainValue, specRewriteValue, hget, hrec]
        · cases w with
          | vRegex s f => simp [processPlainValue, specRewriteValue, hget]
          | vNull =>
            simp only [goodValue, hget] at hgood
            have hrec : processEntries fields = specRewriteEntries fields :=
              ihE fields (by simp at hsz; omega) hgood
            simp [processPlainValue, specRewriteValue, hget, hrec]
          | vBool b =>
            simp only [goodValue, hget] at hgood
            have hrec : processEntries fields = specRewriteEntries fields :=
              ihE fields (by simp at hsz; omega) hgood
            simp [processPlainValue, specRewriteValue, hget, hrec]
          | vInt m =>
            simp only [goodValue, hget] at hgood
            have hrec : processEntries fields = specRewriteEntries fields :=
              ihE fields (by simp at hsz; omega) hgood
            simp [processPlainValue, specRewriteValue, hget, hrec]
          | vStr s =>
            simp only [goodValue, hget] at hgood
            have hrec : processEntries fields = specRewriteEntries fields :=
              ihE fields (by simp at hsz; omega) hgood
            simp [processPlainValue, specRewriteValue, hget, hrec]
          | vId s =>
            simp only [goodValue, hget] at hgood
            have hrec : processEntries fields = specRewriteEntries fields :=
              ihE fields (by simp at hsz; omega) hgood
            simp [processPlainValue, specRewriteValue, hget, hrec]
          | vArr ys =>
            simp only [goodValue, hget] at hgood
            have hrec : processEntries fields = specRewriteEntries fields :=
              ihE fields (by simp at hsz; omega) hgood
            simp [processPlainValue, specRewriteValue, hget, hrec]
          | vObj fs =>
            simp only [goodValue, hget] at hgood
            have hrec : processEntries fields = specRewriteEntries fields :=
              ihE fields (by simp at hsz; omega) hgood
            simp [processPlainValue, specRewriteValue, hget, hrec]
    · intro xs hsz hgood
      cases xs with
      | nil => simp [processItems, specRewriteList]
      | cons x rest =>
        cases x with
        | vObj o =>
          rcases hget : Obj.get o "$regex" with _ | w
          · simp only [goodItems, hget, Bool.and_eq_true] at hgood
            have hhead : processEntries o = specRewriteEntries o :=
              ihE o (by simp at hsz; omega) hgood.1
            have hrest : processItems rest = specRewriteList rest :=
              ihI rest (by simp at hsz; omega) hgood.2
            simp [processItems, specRewriteList, processMongoQuery,
              specRewriteValue, hget, hhead, hrest]
          · cases w with
            | vRegex s f => simp [goodItems, hget] at hgood
            | vNull =>
              simp only [goodItems, hget, Bool.and_eq_true] at hgood
              have hhead : processEntries o = specRewriteEntries o :=
                ihE o (by simp at hsz; omega) hgood.1
              have hrest : processItems rest = specRewriteList rest :=
                ihI rest (by simp at hsz; omega) hgood.2
              simp [processItems, specRewriteList, processMongoQuery,
                specRewriteValue, hget, hhead, hrest]
            | vBool b =>
              simp only [goodItems, hget, Bool.and_eq_true] at hgood
              have hhead : processEntries o = specRewriteEntries o :=
                ihE o (by simp at hsz; omega) hgood.1
              have hrest : processItems rest = specRewriteList rest :=
                ihI rest (by simp at hsz; omega) hgood.2
              simp [processItems, specRewriteList, processMongoQuery,
                specRewriteValue, hget, hhead, hrest]
            | vInt m =>
              simp only [goodItems, hget, Bool.and_eq_true] at hgood
              have hhead : processEntries o = specRewriteEntries o :=
                ihE o (by simp at hsz; omega) hgood.1
              have hrest : processItems rest = specRewriteList rest :=
                ihI rest (by simp at hsz; omega) hgood.2
              simp [processItems, specRewriteList, processMongoQuery,
                specRewriteValue, hget, hhead, hrest]
            | vStr s =>
              simp only [goodItems, hget, Bool.and_eq_true] at hgood
              have hhead : processEntries o = specRewriteEntries o :=
                ihE o (by simp at hsz; omega) hgood.1
              have hrest : processItems rest = specRewriteList rest :=
                ihI rest (by simp at hsz; omega) hgood.2
              simp [processItems, specRewriteList, processMongoQuery,
                specRewriteValue, hget, hhead, hrest]
            | vId s =>
              simp only [goodItems, hget, Bool.and_eq_true] at hgood
              have hhead : processEntries o = specRewriteEntries o :=
                ihE o (by simp at hsz; omega) hgood.1
              have hrest : processItems rest = specRewriteList rest :=
                ihI rest (by simp at hsz; omega) hgood.2
              simp [processItems, specRewriteList, processMongoQuery,
                specRewriteValue, hget, hhead, hrest]
            | vArr ys =>
              simp only [goodItems, hget, Bool.and_eq_true] at hgood
              have hhead : processEntries o = specRewriteEntries o :=
                ihE o (by simp at hsz; omega) hgood.1
              have hrest : processItems rest = specRewriteList rest :=
                ihI rest (by simp at hsz; omega) hgood.2
              simp [processItems, specRewriteList, processMongoQuery,
                specRewriteValue, hget, hhead, hrest]
            | vObj fs =>
              simp only [goodItems, hget, Bool.and_eq_true] at hgood
              have hhead : processEntries o = specRewriteEntries o :=
                ihE o (by simp at hsz; omega) hgood.1
              have hrest : processItems rest = specRewriteList rest :=
                ihI rest (by simp at hsz; omega) hgood.2
              simp [processItems, specRewriteList, processMongoQuery,
                specRewriteValue, hget, hhead, hrest]
        | vNull => simp [goodItems] at hgood
        | vBool b => simp [goodItems] at hgood
        | vInt m => simp [goodItems] at hgood
        | vStr s => simp [goodItems] at hgood
        | vId s => simp [goodItems] at hgood
        | vRegex s f => simp [goodItems] at hgood
        | vArr ys => simp [goodItems] at hgood

/-- `processMongoQuery` reproduces a regex-free, well-shaped filter
unchanged (ingesting the store-native form yields that same form). -/
theorem processIdAux : ∀ n : Nat,
    (∀ o : Obj, sizeOf o < n → shapeEntries o = true →
      regexFreeEntries o = true → processEntries o = o) ∧
    (∀ v : MValue, sizeOf v < n → shapeValue v = true →
      regexFreeValue v = true → processPlainValue v = v) ∧
    (∀ xs : List MValue, sizeOf xs < n → shapeItems xs = true →
      regexFreeList xs = true → processItems xs = xs) := by
  intro n
  induction n with
  | zero =>
    exact ⟨fun o h => absurd h (Nat.not_lt_zero _),
      fun v h => absurd h (Nat.not_lt_zero _),
      fun xs h => absurd h (Nat.not_lt_zero _)⟩
  | succ n ih =>
    obtain ⟨ihE, ihV, ihI⟩ := ih
    refine ⟨?_, ?_, ?_⟩
    · intro o hsz hshape hfree
      cases o with
      | nil => simp [processEntries]
      | cons e rest =>
        obtain ⟨k, v⟩ := e
        simp only [regexFreeEntries, Bool.and_eq_true] at hfree
        by_cases hk : (k == "$and" || k == "$or") = true
        · cases v with
          | vArr items =>
            simp only [shapeEntries, hk, if_true, Bool.and_eq_true] at hshape
            simp only [regexFreeValue] at hfree
            have hhead : processItems items = items :=
              ihI items (by simp at hsz; omega) hshape.1 hfree.1
            have hrest : processEntries rest = rest :=
              ihE rest (by simp at hsz; omega) hshape.2 hfree.2
            simp [processEntries, processValue, hk, hhead, hrest]
          | vNull => simp [shapeEntries, hk] at hshape
          | vBool b => simp [shapeEntries, hk] at hshape
          | vInt m => simp [shapeEntries, hk] at hshape
          | vStr s => simp [shapeEntries, hk] at hshape
          | vId s => simp [shapeEntries, hk] at hshape
          | vRegex s f => simp [shapeEntries, hk] at hshape
          | vObj fs => simp [shapeEntries, hk] at hshape
        · have hkf : (k == "$and" || k == "$or") = false := by
            simpa using hk
          have hshape' : shapeValue v = true ∧ shapeEntries rest = true := by
            cases v <;>
              (simp only [shapeEntries, hkf, Bool.false_eq_true, if_false,
                Bool.and_eq_true] at hshape; exact hshape)
          have hhead : processPlainValue v = v :=
            ihV v (by simp at hsz; omega) hshape'.1 hfree.1
          have hpv : processValue k v = processPlainValue v := by
            cases v <;> simp [processValue, hkf]
          have hrest : processEntries rest = rest :=
            ihE rest (by simp at hsz; omega) hshape'.2 hfree.2
          simp [processEntries, hpv, hhead, hrest]
    · intro v hsz hshape hfree
      cases v with
      | vNull => simp [processPlainValue]
      | vBool b => simp [processPlainValue]
      | vInt m => simp [processPlainValue]
      | vStr s => simp [processPlainValue]
      | vId s => simp [processPlainValue]
      | vRegex s f => simp [regexFreeValue] at hfree
      | vArr xs => simp [processPlainValue]
      | vObj fields =>
        simp only [shapeValue] at hshape
        simp only [regexFreeValue] at hfree
        have hrec : processEntries fields = fields :=
          ihE fields (by simp at hsz; omega) hshape hfree
        rcases hget : Obj.get fields "$regex" with _ | w
        · simp [processPlainValue, hget, hrec]
        · have hw := regexFreeEntries_get hfree hget
          cases w with
          | vRegex s f => simp [regexFreeValue] at hw
          | vNull => simp [processPlainValue, hget, hrec]
          | vBool b => simp [processPlainValue, hget, hrec]
          | vInt m => simp [processPlainValue, hget, hrec]
          | vStr s => simp [processPlainValue, hget, hrec]
          | vId s => simp [processPlainValue, hget, hrec]
          | vArr ys => simp [processPlainValue, hget, hrec]
          | vObj fs => simp [processPlainValue, hget, hrec]
    · intro xs hsz hshape hfree
      cases xs with
      | nil => simp [processItems]
      | cons x rest =>
        simp only [regexFreeList, Bool.and_eq_true] at hfree
        cases x with
        | vObj o =>
          simp only [shapeItems, Bool.and_eq_true] at hshape
          simp only [regexFreeValue] at hfree
          have hhead : processEntries o = o :=
            ihE o (by simp at hsz; omega) hshape.1 hfree.1
          have hrest : processItems rest = rest :=
            ihI rest (by simp at hsz; omega) hshape.2 hfree.2
          simp [processItems, processMongoQuery, hhead, hrest]
        | vNull => simp [shapeItems] at hshape
        | vBool b => simp [shapeItems] at hshape
        | vInt m => simp [shapeItems] at hshape
        | vStr s => simp [shapeItems] at hshape
        | vId s => simp [shapeItems] at hshape
        | vRegex s f => simp [shapeItems] at hshape
        | vArr ys => simp [shapeItems] at hshape

/-- The spec-side rewrite of a `good*` input is regex-free and
well-shaped. -/
theorem specRewriteGoodAux : ∀ n : Nat,
    (∀ o : Obj, sizeOf o < n → goodEntries o = true →
      regexFreeEntries (specRewriteEntries o) = true ∧
      shapeEntries (specRewriteEntries o) = true) ∧
    (∀ v : MValue, sizeOf v < n → goodValue v = true →
      regexFreeValue (specRewriteValue v) = true ∧
      shapeValue (specRewriteValue v) = true) ∧
    (∀ xs : List MValue, sizeOf xs < n → goodItems xs = true →
      regexFreeList (specRewriteList xs) = true ∧
      shapeItems (specRewriteList xs) = true) := by
  intro n
  induction n with
  | zero =>
    exact ⟨fun o h => absurd h (Nat.not_lt_zero _),
      fun v h => absurd h (Nat.not_lt_zero _),
      fun xs h => absurd h (Nat.not_lt_zero _)⟩
  | succ n ih =>
    obtain ⟨ihE, ihV, ihI⟩ := ih
    refine ⟨?_, ?_, ?_⟩
    · intro o hsz hgood
      cases o with
      | nil => simp [specRewriteEntries, regexFreeEntries, shapeEntries]
      | cons e rest =>
        obtain ⟨k, v⟩ := e
        by_cases hk : (k == "$and" || k == "$or") = true
        · cases v with
          | vArr items =>
            simp only [goodEntries, hk, if_true, Bool.and_eq_true] at hgood
            have hhead := ihI items (by simp at hsz; omega) hgood.1
            have hrest := ihE rest (by simp at hsz; omega) hgood.2
            constructor
            · simp [specRewriteEntries, specRewriteValue, regexFreeEntries,
                regexFreeValue, hhead.1, hrest.1]
            · simp only [specRewriteEntries, specRewriteValue]
              cases hsplit : specRewriteList items with
              | nil =>
                simp [shapeEntries, hk, shapeItems, hrest.2]
              | cons y ys =>
                have := hhead.2
                rw [hsplit] at this
                simp [shapeEntries, hk, this, hrest.2]
          | vNull => simp [goodEntries, hk] at hgood
          | vBool b => simp [goodEntries, hk] at hgood
          | vInt m => simp [goodEntries, hk] at hgood
          | vStr s => simp [goodEntries, hk] at hgood
          | vId s => simp [goodEntries, hk] at hgood
          | vRegex s f => simp [goodEntries, hk] at hgood
          | vObj fs => simp [goodEntries, hk] at hgood
        · have hkf : (k == "$and" || k == "$or") = false := by
            simpa using hk
          have hgood' : goodValue v = true ∧ goodEntries rest = true := by
            cases v <;>
              (simp only [goodEntries, hkf, Bool.false_eq_true, if_false,
                Bool.and_eq_true] at hgood; exact hgood)
          have hhead := ihV v (by simp at hsz; omega) hgood'.1
          have hrest := ihE rest (by simp at hsz; omega) hgood'.2
          constructor
          · simp [specRewriteEntries, regexFreeEntries, hhead.1, hrest.1]
          · simp only [specRewriteEntries]
            cases hsv : specRewriteValue v <;>
              (have hs := hhead.2
               rw [hsv] at hs
               simp [shapeEntries, hkf, hs, hrest.2])
    · intro v hsz hgood
      cases v with
      | vNull => simp [specRewriteValue, regexFreeValue, shapeValue]
      | vBool b => simp [specRewriteValue, regexFreeValue, shapeValue]
      | vInt m => simp [specRewriteValue, regexFreeValue, shapeValue]
      | vStr s => simp [specRewriteValue, regexFreeValue, shapeValue]
      | vId s => simp [specRewriteValue, regexFreeValue, shapeValue]
      | vRegex s f =>
        constructor
        · simp [specRewriteValue, regexFreeValue, regexFreeEntries]
        · simp [specRewriteValue, shapeValue, shapeEntries]
      | vArr xs =>
        simp only [goodValue] at hgood
        have hxs : specRewriteList xs = xs := specRewriteList_id hgood
        constructor
        · simp [specRewriteValue, regexFreeValue, hxs, hgood]
        · simp [specRewriteValue, shapeValue]
      | vObj fields =>
        rcases hget : Obj.get fields "$regex" with _ | w
        · simp only [goodValue, hget] at hgood
          have hrec := ihE fields (by simp at hsz; omega) hgood
          constructor
          · simp [specRewriteValue, hget, regexFreeValue, hrec.1]
          · simp [specRewriteValue, hget, shapeValue, hrec.2]
        · cases w with
          | vRegex s f =>
            simp only [goodValue, hget] at hgood
            simp only [patternObjOk, Bool.and_eq_true] at hgood
            have hall2 : ((Obj.set (Obj.set fields "$regex" (.vStr s))
                "$options" (regexOptionsFallback f fields)).all (fun e =>
                e.1 != "$and" && e.1 != "$or" && regexFreeValue e.2 &&
                shapeValue e.2)) = true := by
              have hone : ((Obj.set fields "$regex" (.vStr s)).all (fun e =>
                  e.1 != "$and" && e.1 != "$or" && regexFreeValue e.2 &&
                  shapeValue e.2)) = true := by
                refine Obj.set_all_of_nodup hgood.1 hgood.2 ?_
                simp [regexFreeValue, shapeValue]
              refine Obj.set_all_of_all hone ?_
              have hopts : regexFreeValue (regexOptionsFallback f fields) =
                  true ∧
                  shapeValue (regexOptionsFallback f fields) = true := by
                unfold regexOptionsFallback
                split
                · exact ⟨by simp [regexFreeValue], by simp [shapeValue]⟩
                · rcases hov : Obj.get fields "$options" with _ | ov
                  · exact ⟨by simp [regexFreeValue], by simp [shapeValue]⟩
                  · have hp := Obj.all_of_get hgood.2 hov
                    simp only [Bool.or_eq_true, Bool.and_eq_true] at hp
                    rcases hp with hbad | hp
                    · simp at hbad
                    · by_cases htr : ov.truthy = true
                      · simp only [htr, if_true]
                        exact ⟨hp.1.2, hp.2⟩
                      · simp only [Bool.not_eq_true] at htr
                        simp only [htr, Bool.false_eq_true, if_false]
                        exact ⟨by simp [regexFreeValue], by simp [shapeValue]⟩
              simp only [Bool.and_eq_true]
              exact ⟨⟨⟨by simp, by simp⟩, hopts.1⟩, hopts.2⟩
            constructor
            · simp only [specRewriteValue, hget, regexFreeValue]
              refine regexFreeEntries_of_all (List.all_mono hall2 ?_)
              intro a ha
              simp only [Bool.and_eq_true] at ha
              exact ha.1.2
            · simp only [specRewriteValue, hget, shapeValue]
              refine shapeEntries_of_all (List.all_mono hall2 ?_)
              intro a ha
              simp only [Bool.and_eq_true] at ha ⊢
              exact ⟨ha.1.1, ha.2⟩
          | vNull =>
            simp only [goodValue, hget] at hgood
            have hrec := ihE fields (by simp at hsz; omega) hgood
            exact ⟨by simp [specRewriteValue, hget, regexFreeValue, hrec.1],
              by simp [specRewriteValue, hget, shapeValue, hrec.2]⟩
          | vBool b =>
            simp only [goodValue, hget] at hgood
            have hrec := ihE fields (by simp at hsz; omega) hgood
            exact ⟨by simp [specRewriteValue, hget, regexFreeValue, hrec.1],
              by simp [specRewriteValue, hget, shapeValue, hrec.2]⟩
          | vInt m =>
            simp only [goodValue, hget] at hgood
            have hrec := ihE fields (by simp at hsz; omega) hgood
            exact ⟨by simp [specRewriteValue, hget, regexFreeValue, hrec.1],
              by simp [specRewriteValue, hget, shapeValue, hrec.2]⟩
          | vStr s =>
            simp only [goodValue, hget] at hgood
            have hrec := ihE fields (by simp at hsz; omega) hgood
            exact ⟨by simp [specRewriteValue, hget, regexFreeValue, hrec.1],
              by simp [specRewriteValue, hget, shapeValue, hrec.2]⟩
          | vId s =>
            simp only [goodValue, hget] at hgood
            have hrec := ihE fields (by simp at hsz; omega) hgood
            exact ⟨by simp [specRewriteValue, hget, regexFreeValue, hrec.1],
              by simp [specRewriteValue, hget, shapeValue, hrec.2]⟩
          | vArr ys =>
            simp only [goodValue, hget] at hgood
            have hrec := ihE fields (by simp at hsz; omega) hgood
            exact ⟨by simp [specRewriteValue, hget, regexFreeValue, hrec.1],
              by simp [specRewriteValue, hget, shapeValue, hrec.2]⟩
          | vObj fs =>
            simp only [goodValue, hget] at hgood
            have hrec := ihE fields (by simp at hsz; omega) hgood
            exact ⟨by simp [specRewriteValue, hget, regexFreeValue, hrec.1],
              by simp [specRewriteValue, hget, shapeValue, hrec.2]⟩
    · intro xs hsz hgood
      cases xs with
      | nil => simp [specRewriteList, regexFreeList, shapeItems]
      | cons x rest =>
        cases x with
        | vObj o =>
          have hsplit : goodEntries o = true ∧ goodItems rest = true ∧
              specRewriteValue (.vObj o) = .vObj (specRewriteEntries o) := by
            rcases hget : Obj.get o "$regex" with _ | w
            · simp only [goodItems, hget, Bool.and_eq_true] at hgood
              exact ⟨hgood.1, hgood.2, by simp [specRewriteValue, hget]⟩
            · cases w
              case vRegex s f => simp [goodItems, hget] at hgood
              all_goals
                simp only [goodItems, hget, Bool.and_eq_true] at hgood
              all_goals
                exact ⟨hgood.1, hgood.2, by simp [specRewriteValue, hget]⟩
          obtain ⟨hgo, hgrest, hsv⟩ := hsplit
          have hhead := ihE o (by simp at hsz; omega) hgo
          have hrest := ihI rest (by simp at hsz; omega) hgrest
          have hlist : specRewriteList (MValue.vObj o :: rest) =
              MValue.vObj (specRewriteEntries o) :: specRewriteList rest := by
            simp [specRewriteList, hsv]
          constructor
          · rw [hlist]
            simp [regexFreeList, regexFreeValue, hhead.1, hrest.1]
          · rw [hlist]
            simp [shapeItems, hhead.2, hrest.2]
        | vNull => simp [goodItems] at hgood
        | vBool b => simp [goodItems] at hgood
        | vInt m => simp [goodItems] at hgood
        | vStr s => simp [goodItems] at hgood
        | vId s => simp [goodItems] at hgood
        | vRegex s f => simp [goodItems] at hgood
        | vArr ys => simp [goodItems] at hgood

/-- **C6.**  For every raw filter object in the covered class, ingesting a
native regular-expression value through `where(obj)` — at top level,
nested inside an operator object, or inside a logical `$and`/`$or` array —
yields the same canonical filter expression as writing the store-native
pattern form `{$regex: source, $options: flags}` directly: processing the
native-regex form equals its store-native rewrite, and processing that
store-native form returns it unchanged, so both formulations reach the
store as the same filter and denote the same matched set.  The same
normalization is applied to `$match` stages inside `aggregate()`
pipelines: the executed pipeline is the falsy-filtered pipeline with every
object-typed `$match` stage in store-native form. -/
theorem c6_regex_normalization (q : Obj) (pipeline : List MValue) :
    (goodEntries q = true →
      processEntries q = specRewriteEntries q ∧
      processEntries (specRewriteEntries q) = specRewriteEntries q) ∧
    (pipeline.all stageGood = true →
      processPipeline pipeline =
        (pipeline.filter (fun st => st.truthy)).map specStage) := by
  constructor
  · intro hgood
    have hA := (processSpecAgreeAux (sizeOf q + 1)).1 q
      (Nat.lt_succ_self _) hgood
    have hHG := (specRewriteGoodAux (sizeOf q + 1)).1 q
      (Nat.lt_succ_self _) hgood
    have hId := (processIdAux (sizeOf (specRewriteEntries q) + 1)).1
      (specRewriteEntries q) (Nat.lt_succ_self _) hHG.2 hHG.1
    exact ⟨hA, hId⟩
  · intro hall
    unfold processPipeline
    refine List.map_congr_left ?_
    intro st hst
    have hgst : stageGood st = true :=
      (List.all_eq_true.1 hall) st (List.mem_of_mem_filter hst)
    unfold processStage specStage
    congr 1
    refine List.map_congr_left ?_
    intro e he
    by_cases hm : (e.1 == "$match" && isObjectType e.2) = true
    · have he2 := (List.all_eq_true.1 hgst) e he
      simp only [Bool.and_eq_true] at hm
      simp only [Bool.or_eq_true, bne_iff_ne, ne_eq] at he2
      rcases he2 with hbad | he2
      · exact absurd (by simpa using hm.1) hbad
      · cases hv : e.2 with
        | vObj o =>
          rw [hv] at he2
          have : processMongoQuery (.vObj o) = processEntries o := by
            simp [processMongoQuery]
          simp only [hm.1, hm.2, hv, Bool.and_self, if_true, this,
            stageEntries]
          have := (processSpecAgreeAux (sizeOf o + 1)).1 o
            (Nat.lt_succ_self _) he2
          simp [this]
        | vNull =>
          rw [hv] at hm
          simp [isObjectType] at hm
        | vBool b =>
          rw [hv] at hm
          simp [isObjectType] at hm
        | vInt m =>
          rw [hv] at hm
          simp [isObjectType] at hm
        | vStr s =>
          rw [hv] at hm
          simp [isObjectType] at hm
        | vId s =>
          rw [hv] at hm
          simp [isObjectType] at hm
        | vRegex s f =>
          rw [hv] at he2
          simp only [isObjectType, Bool.not_true, Bool.false_eq_true] at he2
        | vArr ys =>
          rw [hv] at he2
          simp only [isObjectType, Bool.not_true, Bool.false_eq_true] at he2
    · simp only [Bool.not_eq_true] at hm
      simp [hm]

/-- Witness for C6: a concrete filter mixing a top-level native regex, a
regex nested in an operator object inside an `$or` array, and a concrete
pipeline with a `$match` stage and a falsy stage. -/
theorem c6_regex_normalization_witness :
    (processEntries
        [("name", .vRegex "foo" "i"),
         ("$or", .vArr [.vObj [("a", .vObj [("$not", .vRegex "x" "m")])],
            .vObj [("b", .vInt 1)]])] =
      specRewriteEntries
        [("name", .vRegex "foo" "i"),
         ("$or", .vArr [.vObj [("a", .vObj [("$not", .vRegex "x" "m")])],
            .vObj [("b", .vInt 1)]])]) ∧
    (processPipeline
        [.vObj [("$match", .vObj [("name", .vRegex "foo" "i")])],
         .vBool false] =
      ([.vObj [("$match", .vObj [("name", .vRegex "foo" "i")])],
         .vBool false].filter (fun st => st.truthy)).map specStage) := by
  constructor
  · exact ((c6_regex_normalization
      [("name", .vRegex "foo" "i"),
       ("$or", .vArr [.vObj [("a", .vObj [("$not", .vRegex "x" "m")])],
          .vObj [("b", .vInt 1)]])] []).1
      (by decide)).1
  · exact (c6_regex_normalization []
      [.vObj [("$match", .vObj [("name", .vRegex "foo" "i")])],
       .vBool false]).2 (by decide)

/-!
## C2: `where` merge rule
-/

/-- **C2.**  On one builder, a second `where(key, operator, value)` call on
the same key with a non-`=` operator merges the new operator into the
key's existing operator object, while `where(key, '=', value)` always
replaces the key's entire entry with the bare value.  Concretely,
`where('age','>',18)` then `where('age','<',65)` leaves a single entry for
`age` holding both bounds, and generally: if the current condition for
`key` is an operator object `fields` and `op` is a simple non-`=` operator
mapping to MongoDB key `mk`, the new condition for `key` is `fields` with
`mk` set to the value; an `=` call yields the bare value, in the merge
branch and in the create branch alike. -/
theorem c2_where_merge_rule (qb : MongoQueryBuilder) (key : String)
    (v : MValue) :
    (qb.filter.get "age" = none →
      (((qb.whereOp "age" ">" (.vInt 18)).whereOp "age" "<"
          (.vInt 65)).filter.get "age" =
        some (.vObj [("$gt", .vInt 18), ("$lt", .vInt 65)]))) ∧
    (∀ (fields : Obj) (op mk : String),
      qb.filter.get key = some (.vObj fields) →
      simpleOpKey op = some mk →
      (qb.whereOp key op v).filter.get key = some (.vObj (fields.set mk v))) ∧
    ((qb.whereOp key "=" v).filter.get key = some v) := by
  refine ⟨?_, ?_, ?_⟩
  · intro h
    simp [MongoQueryBuilder.whereOp, h, MongoQueryBuilder.freshCondition,
      MongoQueryBuilder.mergeOperator, Obj.get_set_self, Obj.set]
  · intro fields op mk hf hop
    unfold simpleOpKey at hop
    split at hop <;>
      simp_all [MongoQueryBuilder.whereOp, MongoQueryBuilder.mergeOperator]
  · rcases hq : qb.filter.get key with _ | v'
    · simp [MongoQueryBuilder.whereOp, hq, MongoQueryBuilder.freshCondition]
    · cases v' <;>
        simp [MongoQueryBuilder.whereOp, hq, MongoQueryBuilder.freshCondition,
          MongoQueryBuilder.mergeOperator]

/-- Witness for C2 at concrete inputs: on an empty builder,
`where('age','>',18); where('age','<',65)` yields one `age` entry with both
bounds, and a further `where('age','=',30)` replaces the entry with `30`. -/
theorem c2_where_merge_rule_witness :
    ((({} : MongoQueryBuilder).whereOp "age" ">" (.vInt 18)).whereOp
        "age" "<" (.vInt 65)).filter.get "age" =
      some (.vObj [("$gt", .vInt 18), ("$lt", .vInt 65)]) ∧
    (((({} : MongoQueryBuilder).whereOp "age" ">" (.vInt 18)).whereOp
        "age" "<" (.vInt 65)).whereOp "age" "=" (.vInt 30)).filter.get
        "age" = some (.vInt 30) := by
  constructor
  · exact (c2_where_merge_rule {} "age" (.vInt 0)).1 rfl
  · exact (c2_where_merge_rule
      ((({} : MongoQueryBuilder).whereOp "age" ">" (.vInt 18)).whereOp
        "age" "<" (.vInt 65)) "age" (.vInt 30)).2.2

/-!
## C5: clone independence
-/

theorem resolveVal_of_isPrim (h : Heap) {v : HVal}
    (hp : v.isPrim = true) : resolveVal h v = primToM v := by
  cases v with
  | ref a => simp [HVal.isPrim] at hp
  | hNull => rfl
  | hBool b => rfl
  | hInt n => rfl
  | hStr s => rfl

theorem refsF_nil_of_prim : ∀ {fs : List (String × HVal)},
    fs.all (fun e => e.2.isPrim) = true → refsF fs = [] := by
  intro fs
  induction fs with
  | nil => intro _; rfl
  | cons e rest ih =>
    obtain ⟨k, v⟩ := e
    intro hall
    rw [List.all_cons, Bool.and_eq_true] at hall
    cases v with
    | ref a => simp [HVal.isPrim] at hall
    | hNull => simp only [refsF]; exact ih hall.2
    | hBool b => simp only [refsF]; exact ih hall.2
    | hInt n => simp only [refsF]; exact ih hall.2
    | hStr s => simp only [refsF]; exact ih hall.2

theorem map_resolve_of_prim (h : Heap) : ∀ (fs : List (String × HVal)),
    fs.all (fun e => e.2.isPrim) = true →
    fs.map (fun e => (e.1, resolveVal h e.2)) =
    fs.map (fun e => (e.1, primToM e.2)) := by
  intro fs
  induction fs with
  | nil => intro _; rfl
  | cons e rest ih =>
    intro hall
    rw [List.all_cons, Bool.and_eq_true] at hall
    simp only [List.map_cons]
    rw [resolveVal_of_isPrim h hall.1, ih hall.2]

theorem flatRoot_fields {h : Heap} {r : Nat}
    (hflat : flatRoot h r = true) :
    ∃ fields, h.read r = some (.obj fields) ∧
      fields.all (fun e => e.2.isPrim) = true := by
  unfold flatRoot at hflat
  rcases hr : h.read r with _ | o
  · simp only [hr] at hflat
    exact Bool.noConfusion hflat
  · cases o with
    | obj fs =>
      simp only [hr] at hflat
      exact ⟨fs, rfl, hflat⟩
    | arr items =>
      simp only [hr] at hflat
      exact Bool.noConfusion hflat

theorem materializeFilter2_flat_congr {h h' : Heap} {r : Nat}
    (hread : h'.read r = h.read r) (hflat : flatRoot h r = true) :
    materializeFilter2 h' r = materializeFilter2 h r := by
  obtain ⟨fields, hr, hall⟩ := flatRoot_fields hflat
  simp only [materializeFilter2, hread, hr]
  rw [map_resolve_of_prim h' fields hall, map_resolve_of_prim h fields hall]

/-- **C5 (amended).**  `clone()` copies the sort, projection, limit and
skip scalars and shallow-copies the filter: when the filter is still flat
(every root entry a primitive value — no operator objects yet), the clone
materializes to the same filter as the original, and any sequence of
subsequent `where`/`orWhere`/`select`/`orderBy`/`limit`/`offset` calls on
the clone leaves the original's materialized filter unchanged, and vice
versa.  (The original claim, independence for *every* builder state, is
false: the shallow `{ ...this.filter }` spread shares nested operator
objects, see `c5_clone_shared_operator_counterexample`.) -/
theorem c5_clone_independence (h : Heap) (b : HQueryBuilder)
    (ops opsO : List BOp) (hflat : flatRoot h b.filterRef = true) :
    ((cloneB h b).2.sortOptions = b.sortOptions ∧
     (cloneB h b).2.projection = b.projection ∧
     (cloneB h b).2.limitValue = b.limitValue ∧
     (cloneB h b).2.skipValue = b.skipValue) ∧
    materializeFilter2 (cloneB h b).1 (cloneB h b).2.filterRef =
      materializeFilter2 h b.filterRef ∧
    materializeFilter2 (applyOps (cloneB h b).1 (cloneB h b).2 ops).1
      b.filterRef = materializeFilter2 h b.filterRef ∧
    materializeFilter2 (applyOps (cloneB h b).1 b opsO).1
      (cloneB h b).2.filterRef = materializeFilter2 h b.filterRef := by
  obtain ⟨fields, hr, hall⟩ := flatRoot_fields hflat
  have hlt : b.filterRef < h.cells.length := Heap.read_lt_length hr
  have hcrf : cloneRootFields h b.filterRef = fields := by
    unfold cloneRootFields; rw [hr]
  have hread_orig :
      (cloneB h b).1.read b.filterRef = h.read b.filterRef :=
    Heap.read_alloc_lt h _ hlt
  have hread_clone :
      (cloneB h b).1.read (cloneB h b).2.filterRef =
        some (.obj fields) := by
    show (h.alloc (.obj (cloneRootFields h b.filterRef))).1.read
      h.cells.length = some (.obj fields)
    rw [Heap.read_alloc_self, hcrf]
  have hflat_clone :
      flatRoot (cloneB h b).1 (cloneB h b).2.filterRef = true := by
    simp only [flatRoot, hread_clone]
    exact hall
  have hlen : (cloneB h b).1.cells.length = h.cells.length + 1 :=
    Heap.length_alloc h _
  have hcopy : materializeFilter2 (cloneB h b).1
      (cloneB h b).2.filterRef = materializeFilter2 h b.filterRef := by
    simp only [materializeFilter2, hread_clone, hr]
    rw [map_resolve_of_prim _ fields hall,
      map_resolve_of_prim h fields hall]
  refine ⟨⟨rfl, rfl, rfl, rfl⟩, hcopy, ?_, ?_⟩
  · have hinv : FrameInv (cloneB h b).1 (cloneB h b).2 b.filterRef := by
      refine ⟨?_, ?_, ?_, ?_⟩
      · rw [hlen]; omega
      · show h.cells.length < (cloneB h b).1.cells.length
        rw [hlen]; omega
      · show b.filterRef ≠ h.cells.length
        omega
      · intro a ha
        rw [rootRefs_of_read_obj hread_clone,
          refsF_nil_of_prim hall] at ha
        cases ha
    have hfin := applyOps_frame ops (cloneB h b).1 (cloneB h b).2
      b.filterRef hinv
    exact materializeFilter2_flat_congr (hfin.trans hread_orig) hflat
  · have hinv : FrameInv (cloneB h b).1 b (cloneB h b).2.filterRef := by
      refine ⟨?_, ?_, ?_, ?_⟩
      · show h.cells.length < (cloneB h b).1.cells.length
        rw [hlen]; omega
      · rw [hlen]; omega
      · show h.cells.length ≠ b.filterRef
        omega
      · intro a ha
        rw [rootRefs_congr hread_orig, rootRefs_of_read_obj hr,
          refsF_nil_of_prim hall] at ha
        cases ha
    have hfin := applyOps_frame opsO (cloneB h b).1 b
      (cloneB h b).2.filterRef hinv
    exact (materializeFilter2_flat_congr hfin hflat_clone).trans hcopy

theorem c5_clone_independence_witness :
    flatRoot (⟨[.obj [("name", .hStr "Ada")]]⟩ : Heap) 0 = true ∧
    ((cloneB ⟨[.obj [("name", .hStr "Ada")]]⟩ ⟨0, [], [], none, none⟩).2.sortOptions = [] ∧
     (cloneB ⟨[.obj [("name", .hStr "Ada")]]⟩ ⟨0, [], [], none, none⟩).2.projection = [] ∧
     (cloneB ⟨[.obj [("name", .hStr "Ada")]]⟩ ⟨0, [], [], none, none⟩).2.limitValue = none ∧
     (cloneB ⟨[.obj [("name", .hStr "Ada")]]⟩ ⟨0, [], [], none, none⟩).2.skipValue = none) ∧
    materializeFilter2
      (cloneB ⟨[.obj [("name", .hStr "Ada")]]⟩ ⟨0, [], [], none, none⟩).1
      (cloneB ⟨[.obj [("name", .hStr "Ada")]]⟩ ⟨0, [], [], none, none⟩).2.filterRef =
      materializeFilter2 ⟨[.obj [("name", .hStr "Ada")]]⟩ 0 ∧
    materializeFilter2
      (applyOps
        (cloneB ⟨[.obj [("name", .hStr "Ada")]]⟩ ⟨0, [], [], none, none⟩).1
        (cloneB ⟨[.obj [("name", .hStr "Ada")]]⟩ ⟨0, [], [], none, none⟩).2
        [.opWhereOp "age" ">" (.pInt 18), .opOrWhereKV "city" (.pStr "x"),
         .opLimit 5]).1 0 =
      materializeFilter2 ⟨[.obj [("name", .hStr "Ada")]]⟩ 0 ∧
    materializeFilter2
      (applyOps
        (cloneB ⟨[.obj [("name", .hStr "Ada")]]⟩ ⟨0, [], [], none, none⟩).1
        ⟨0, [], [], none, none⟩
        [.opWhereOp "age" "<" (.pInt 65)]).1
      (cloneB ⟨[.obj [("name", .hStr "Ada")]]⟩ ⟨0, [], [], none, none⟩).2.filterRef =
      materializeFilter2 ⟨[.obj [("name", .hStr "Ada")]]⟩ 0 :=
  ⟨rfl,
    c5_clone_independence ⟨[.obj [("name", .hStr "Ada")]]⟩
      ⟨0, [], [], none, none⟩
      [.opWhereOp "age" ">" (.pInt 18), .opOrWhereKV "city" (.pStr "x"),
       .opLimit 5]
      [.opWhereOp "age" "<" (.pInt 65)] rfl⟩

/-- **C5 (counterexample).**  The clone is *not* independent in general:
`where('age','>',18)` stores a condition object referenced from the root;
`clone()`'s shallow spread shares that reference, so `where('age','<',65)`
on the clone mutates the shared condition object in place and the
original's materialized filter changes from `{age: {$gt: 18}}` to
`{age: {$gt: 18, $lt: 65}}`. -/
theorem c5_clone_shared_operator_counterexample :
    let h0 : Heap := ⟨[.obj []]⟩
    let b0 : HQueryBuilder := ⟨0, [], [], none, none⟩
    let s1 := hWhereOp h0 b0 "age" ">" (.pInt 18)
    let c := cloneB s1.1 s1.2
    let s2 := hWhereOp c.1 c.2 "age" "<" (.pInt 65)
    materializeFilter2 s1.1 s1.2.filterRef =
      [("age", .vObj [("$gt", .vInt 18)])] ∧
    materializeFilter2 s2.1 s1.2.filterRef =
      [("age", .vObj [("$gt", .vInt 18), ("$lt", .vInt 65)])] ∧
    ([("age", MValue.vObj [("$gt", MValue.vInt 18),
        ("$lt", MValue.vInt 65)])] : Obj) ≠
      [("age", MValue.vObj [("$gt", MValue.vInt 18)])] := by
  refine ⟨rfl, rfl, ?_⟩
  intro hce
  simp at hce

/-!
## Model-layer supporting lemmas
-/

theorem hookNames_append : ∀ (a b : List Ev),
    hookNames (a ++ b) = hookNames a ++ hookNames b := by
  intro a b
  induction a with
  | nil => rfl
  | cons e rest ih =>
    cases e with
    | hook n =>
      simp only [List.cons_append, hookNames, List.append_eq] at ih ⊢
      rw [ih]
    | insertCall d =>
      simp only [List.cons_append, hookNames, List.append_eq] at ih ⊢
      rw [ih]
    | updateCall k v d =>
      simp only [List.cons_append, hookNames, List.append_eq] at ih ⊢
      rw [ih]
    | deleteCall k v =>
      simp only [List.cons_append, hookNames, List.append_eq] at ih ⊢
      rw [ih]
    | firstCall k v =>
      simp only [List.cons_append, hookNames, List.append_eq] at ih ⊢
      rw [ih]

theorem processFromDatabase_state (cls : MClass) :
    ∀ (data : Obj) (m : ModelState),
    (processFromDatabase cls m data).isNew = m.isNew ∧
    (processFromDatabase cls m data).pkValue = m.pkValue ∧
    (processFromDatabase cls m data).attrs = m.attrs ∧
    (processFromDatabase cls m data).original = m.original := by
  intro data
  induction data with
  | nil => intro m; exact ⟨rfl, rfl, rfl, rfl⟩
  | cons e rest ih =>
    intro m
    rcases hfp : findPropDef cls.columns e.1 with _ | pd
    · have hstep : processFromDatabase cls m (e :: rest) =
          processFromDatabase cls
            { m with fields := Obj.set m.fields e.1 e.2 } rest := by
        unfold processFromDatabase
        rw [List.foldl_cons]
        simp only [hfp]
      rw [hstep]
      exact ih _
    · rcases hcs : pd.2.consume with _ | f
      · have hstep : processFromDatabase cls m (e :: rest) =
            processFromDatabase cls
              { m with fields := Obj.set m.fields pd.1 e.2 } rest := by
          unfold processFromDatabase
          rw [List.foldl_cons]
          simp only [hfp]
          rw [hcs]
        rw [hstep]
        exact ih _
      · have hstep : processFromDatabase cls m (e :: rest) =
            processFromDatabase cls
              { m with fields := Obj.set m.fields pd.1 (f e.2) } rest := by
          unfold processFromDatabase
          rw [List.foldl_cons]
          simp only [hfp]
          rw [hcs]
        rw [hstep]
        exact ih _

theorem refresh_total (cls : MClass) (st : MStore) (m : ModelState)
    (hnotnew : m.isNew = false) (hpk : truthyOpt m.pkValue = true) :
    ∃ p, refresh cls st m = .ok p ∧
      p.2 = [.firstCall cls.primaryKey (m.pkValue.getD .vNull)] := by
  unfold refresh
  rw [hnotnew, hpk]
  simp only [Bool.not_true, Bool.or_false, Bool.false_eq_true, if_false]
  rcases hf : firstKV st cls.primaryKey (m.pkValue.getD .vNull) with _ | doc
  · exact ⟨_, rfl, rfl⟩
  · exact ⟨_, rfl, rfl⟩

theorem refresh_ok_shape {cls : MClass} {st : MStore} {m : ModelState}
    {p : ModelState × List Ev} (h : refresh cls st m = .ok p) :
    m.isNew = false ∧ truthyOpt m.pkValue = true ∧
    p.2 = [.firstCall cls.primaryKey (m.pkValue.getD .vNull)] ∧
    ((p.1.isNew = true ∧ p.1.pkValue = none ∧ p.1.fields = m.fields ∧
        p.1.attrs = m.attrs ∧ p.1.original = m.original) ∨
      (p.1.isNew = false ∧ p.1.pkValue = m.pkValue ∧
        p.1.attrs = m.attrs)) := by
  unfold refresh at h
  rcases hn : m.isNew with _ | _
  · rcases ht : truthyOpt m.pkValue with _ | _
    · rw [hn, ht] at h
      simp at h
    · rw [hn, ht] at h
      simp only [Bool.not_true, Bool.or_false, Bool.false_eq_true,
        if_false] at h
      rcases hf : firstKV st cls.primaryKey (m.pkValue.getD .vNull)
        with _ | doc
      · rw [hf] at h
        injection h with h₂
        refine ⟨rfl, rfl, ?_, .inl ?_⟩
        · rw [← h₂]
        · rw [← h₂]
          exact ⟨rfl, rfl, rfl, rfl, rfl⟩
      · rw [hf] at h
        injection h with h₂
        obtain ⟨hin, hpk₂, hat, _⟩ := processFromDatabase_state cls doc m
        refine ⟨rfl, rfl, ?_, .inr ?_⟩
        · rw [← h₂]
        · rw [← h₂]
          exact ⟨hin.trans hn, hpk₂, hat⟩
  · rw [hn] at h
    simp at h

theorem save_create_run (cls : MClass) (st : MStore) (m : ModelState)
    (m₂ : ModelState) (evR : List Ev) (hnew : m.isNew = true)
    (href : refresh cls (insertOne st (toObject cls m)).2
      { m with
        pkValue := some (insertOne st (toObject cls m)).1
        isNew := false } = .ok (m₂, evR)) :
    save cls st m = .ok (m₂, (insertOne st (toObject cls m)).2,
      (hookEv cls.hasBeforeSave "beforeSave" ++
        hookEv cls.hasBeforeCreate "beforeCreate") ++
      [.insertCall (toObject cls m)] ++ evR ++
      hookEv cls.hasAfterSave "afterSave" ++
      hookEv cls.hasAfterCreate "afterCreate") := by
  unfold save
  rw [hnew]
  simp only [if_true, href]

theorem save_update_run (cls : MClass) (st : MStore) (m : ModelState)
    (m₂ : ModelState) (evR : List Ev) (hold : m.isNew = false)
    (hpk : truthyOpt m.pkValue = true)
    (href : refresh cls
      (updateSetKV st cls.primaryKey (m.pkValue.getD .vNull)
        (toObject cls m)) m = .ok (m₂, evR)) :
    save cls st m = .ok (m₂,
      updateSetKV st cls.primaryKey (m.pkValue.getD .vNull)
        (toObject cls m),
      (hookEv cls.hasBeforeSave "beforeSave" ++
        hookEv cls.hasBeforeUpdate "beforeUpdate") ++
      [.updateCall cls.primaryKey (m.pkValue.getD .vNull)
        (toObject cls m)] ++ evR ++
      hookEv cls.hasAfterSave "afterSave" ++
      hookEv cls.hasAfterUpdate "afterUpdate") := by
  unfold save
  rw [hold]
  simp only [Bool.false_eq_true, if_false, hpk, Bool.not_true, href]

theorem save_ok_shape {cls : MClass} {st : MStore} {m : ModelState}
    {r : ModelState × MStore × List Ev} (h : save cls st m = .ok r) :
    r.1.attrs = m.attrs ∧ ModelInv r.1 := by
  unfold save at h
  rcases hn : m.isNew with _ | _
  · -- update path
    rw [hn] at h
    simp only [Bool.false_eq_true, if_false] at h
    rcases ht : truthyOpt m.pkValue with _ | _
    · rw [ht] at h
      simp at h
    · rw [ht] at h
      simp only [Bool.not_true, Bool.false_eq_true, if_false] at h
      rcases hre : refresh cls
          (updateSetKV st cls.primaryKey (m.pkValue.getD .vNull)
            (toObject cls m)) m with e | pr
      · rw [hre] at h
        simp at h
      · rw [hre] at h
        injection h with h₂
        obtain ⟨_, _, _, hshape⟩ := refresh_ok_shape hre
        rcases hmv : m.pkValue with _ | v
        · rw [hmv] at ht
          simp [truthyOpt] at ht
        · rcases hshape with ⟨hi, hp, _, ha, _⟩ | ⟨hi, hp, ha⟩
          · refine ⟨?_, ?_, ?_⟩
            · rw [← h₂]; exact ha
            · intro _; rw [← h₂]; exact hp
            · intro hf
              rw [← h₂] at hf
              exact absurd (hi.symm.trans hf) (by simp)
          · refine ⟨?_, ?_, ?_⟩
            · rw [← h₂]; exact ha
            · intro htr
              rw [← h₂] at htr
              exact absurd (hi.symm.trans htr) (by simp)
            · intro _
              rw [← h₂]
              exact ⟨v, hp.trans hmv⟩
  · -- create path
    rw [hn] at h
    simp only [if_true] at h
    rcases hre : refresh cls (insertOne st (toObject cls m)).2
        { m with
          pkValue := some (insertOne st (toObject cls m)).1
          isNew := false } with e | pr
    · rw [hre] at h
      simp at h
    · rw [hre] at h
      injection h with h₂
      obtain ⟨_, _, _, hshape⟩ := refresh_ok_shape hre
      rcases hshape with ⟨hi, hp, _, ha, _⟩ | ⟨hi, hp, ha⟩
      · refine ⟨?_, ?_, ?_⟩
        · rw [← h₂]; exact ha
        · intro _; rw [← h₂]; exact hp
        · intro hf
          rw [← h₂] at hf
          exact absurd (hi.symm.trans hf) (by simp)
      · refine ⟨?_, ?_, ?_⟩
        · rw [← h₂]; exact ha
        · intro htr
          rw [← h₂] at htr
          exact absurd (hi.symm.trans htr) (by simp)
        · intro _
          rw [← h₂]
          exact ⟨(insertOne st (toObject cls m)).1, hp⟩

/-- **C10.**  `refresh()` raises `ModelPrimaryKeyMissing` exactly when
the instance is new or lacks a (truthy) primary-key value; for a
persisted instance whose document no longer exists in the store it does
not raise: it returns the instance with `$isNew` reset to true and the
primary-key value cleared, leaving every other field (`fields`,
`$original`, `$attributes`) unchanged. -/
theorem c10_refresh_missing_doc (cls : MClass) (st : MStore)
    (m : ModelState) :
    (refresh cls st m = .error .modelPrimaryKeyMissing ↔
      (m.isNew = true ∨ truthyOpt m.pkValue = false)) ∧
    (m.isNew = false → truthyOpt m.pkValue = true →
      firstKV st cls.primaryKey (m.pkValue.getD .vNull) = none →
      refresh cls st m =
        .ok ({ m with isNew := true, pkValue := none },
          [.firstCall cls.primaryKey (m.pkValue.getD .vNull)])) := by
  constructor
  · constructor
    · intro he
      rcases hn : m.isNew with _ | _
      · rcases ht : truthyOpt m.pkValue with _ | _
        · exact Or.inr rfl
        · unfold refresh at he
          rw [hn, ht] at he
          simp only [Bool.not_true, Bool.or_false, Bool.false_eq_true,
            if_false] at he
          rcases hf : firstKV st cls.primaryKey (m.pkValue.getD .vNull)
            with _ | doc
          · rw [hf] at he
            exact absurd he (by simp)
          · rw [hf] at he
            exact absurd he (by simp)
      · exact Or.inl rfl
    · intro hor
      unfold refresh
      rcases hor with hn | ht
      · rw [hn]
        rfl
      · rw [ht]
        rcases hn : m.isNew with _ | _
        · rfl
        · rfl
  · intro hn ht hf
    unfold refresh
    rw [hn, ht]
    simp only [Bool.not_true, Bool.or_false, Bool.false_eq_true, if_false,
      hf]

theorem c10_refresh_missing_doc_witness :
    refresh {} {}
      { fields := [("name", MValue.vStr "Ada")], isNew := false,
        pkValue := some (.vId "aaaaaaaaaaaaaaaaaaaaaaaa"), original := [],
        attrs := [] } =
      .ok ({ fields := [("name", MValue.vStr "Ada")], isNew := true,
             pkValue := none, original := [], attrs := [] },
        [.firstCall "_id" (.vId "aaaaaaaaaaaaaaaaaaaaaaaa")]) :=
  (c10_refresh_missing_doc {} {}
    { fields := [("name", MValue.vStr "Ada")], isNew := false,
      pkValue := some (.vId "aaaaaaaaaaaaaaaaaaaaaaaa"), original := [],
      attrs := [] }).2 rfl rfl rfl

/-- **C9.**  Each execute-class method (`exec`, `count`, `update`,
`delete`, `insert`, `insertMany`, `aggregate`) emits exactly one
timing/outcome event per invocation — on the success path and on the
failure path alike — and on failure re-raises the very same driver error
to the caller after the event (with its `error` payload) has been
emitted; no error is swallowed. -/
theorem c9_one_event_per_execute (cls : MClass) (e : DErr)
    (results : List Obj) (n : Nat) (dn : Option Nat) (idv : MValue)
    (ids : List MValue) (pipeline : List MValue) :
    ((execE cls (.error e)).1 = .error e ∧
      (execE cls (.error e)).2 = [⟨"exec", true⟩] ∧
      (execE cls (.ok results)).1 = .ok (results.map (execHydrate cls)) ∧
      (execE cls (.ok results)).2 = [⟨"exec", false⟩]) ∧
    ((countE (.error e)).1 = .error e ∧
      (countE (.error e)).2 = [⟨"count", true⟩] ∧
      (countE (.ok n)).1 = .ok n ∧
      (countE (.ok n)).2 = [⟨"count", false⟩]) ∧
    ((updateE (.error e)).1 = .error e ∧
      (updateE (.error e)).2 = [⟨"update", true⟩] ∧
      (updateE (.ok n)).1 = .ok n ∧
      (updateE (.ok n)).2 = [⟨"update", false⟩]) ∧
    ((deleteE (.error e)).1 = .error e ∧
      (deleteE (.error e)).2 = [⟨"delete", true⟩] ∧
      (deleteE (.ok dn)).1 = .ok (dn.getD 0) ∧
      (deleteE (.ok dn)).2 = [⟨"delete", false⟩]) ∧
    ((insertE (.error e)).1 = .error e ∧
      (insertE (.error e)).2 = [⟨"insert", true⟩] ∧
      (insertE (.ok idv)).1 = .ok idv ∧
      (insertE (.ok idv)).2 = [⟨"insert", false⟩]) ∧
    ((insertManyE (.error e)).1 = .error e ∧
      (insertManyE (.error e)).2 = [⟨"insertMany", true⟩] ∧
      (insertManyE (.ok ids)).1 = .ok ids ∧
      (insertManyE (.ok ids)).2 = [⟨"insertMany", false⟩]) ∧
    ((aggregateE pipeline (fun _ => .error e)).1 = .error e ∧
      (aggregateE pipeline (fun _ => .error e)).2 =
        [⟨"aggregate", true⟩] ∧
      (aggregateE pipeline (fun _ => .ok results)).1 = .ok results ∧
      (aggregateE pipeline (fun _ => .ok results)).2 =
        [⟨"aggregate", false⟩]) :=
  ⟨⟨rfl, rfl, rfl, rfl⟩, ⟨rfl, rfl, rfl, rfl⟩, ⟨rfl, rfl, rfl, rfl⟩,
    ⟨rfl, rfl, rfl, rfl⟩, ⟨rfl, rfl, rfl, rfl⟩, ⟨rfl, rfl, rfl, rfl⟩,
    ⟨rfl, rfl, rfl, rfl⟩⟩

/-- **C8 (counterexample).**  Not every operation that needs the owner's
local-key value fails with an error on a falsy one: `HasMany.exec()` on
an owner whose local key is absent returns normally with `[]` (and
likewise the other read operations return their neutral values), so the
claimed "fails immediately with an error" is wrong for the read path. -/
theorem c8_falsy_read_counterexample :
    hasManyExec {} {} "owner_id" "_id" = (.ok [], []) ∧
    btmExists {} {} (.vInt 1) "_id" "owner_id" "related_id" =
      (.ok false, []) :=
  ⟨rfl, rfl⟩

/-- **C8 (amended).**  With a falsy (or absent) owner local-key value,
no relation operation issues a store call, but only the write-path
operations fail with an error: `exec` across HasOne/HasMany/
BelongsToMany returns null/[]/[], `exists` returns false, `pivotData`
returns null, and `dissociate`/`delete`/`detach` return silently, while
`save`/`saveMany`/`create`/`createMany`/`associate`/`associateMany`/
`attach`/`attachWithPivotData`/`updatePivotData` throw immediately;
`BelongsTo` guards its foreign-key (for `exec`) and the related model's
local key (for `associate`) the same way. -/
theorem c8_falsy_localKey_guards (st pst rst : MStore)
    (owner related : ModelState) (relatedList : List ModelState)
    (values : Obj) (valuesList : List Obj) (ids : List MValue)
    (data : List (MValue × Obj)) (id : MValue) (pdata : Obj)
    (detachIds : Option (List MValue)) (fk lk pfk prk rfk : String)
    (hfalsy : truthyOpt (Obj.get owner.fields lk) = false) :
    hasOneExec st owner fk lk = (.ok none, []) ∧
    hasManyExec st owner fk lk = (.ok [], []) ∧
    btmExec pst rst owner lk pfk prk rfk = (.ok [], []) ∧
    btmExists pst owner id lk pfk prk = (.ok false, []) ∧
    btmPivotData pst owner id lk pfk prk = (.ok none, []) ∧
    hasManyDissociate owner fk lk = (.ok (), []) ∧
    hasManyDelete owner fk lk = (.ok (), []) ∧
    btmDetach owner detachIds lk pfk prk = (.ok (), []) ∧
    hasOneSave owner related fk lk =
      (.error "Cannot save relation. The local key value is undefined",
        []) ∧
    hasOneCreate owner values fk lk =
      (.error "Cannot create relation. The local key value is undefined",
        []) ∧
    hasOneAssociate owner related fk lk =
      (.error
        "Cannot associate relation. The local key value is undefined",
        []) ∧
    hasManySave owner related fk lk =
      (.error "Cannot save relation. The local key value is undefined",
        []) ∧
    hasManySaveMany owner relatedList fk lk =
      (.error "Cannot save relation. The local key value is undefined",
        []) ∧
    hasManyCreate owner values fk lk =
      (.error "Cannot create relation. The local key value is undefined",
        []) ∧
    hasManyCreateMany owner valuesList fk lk =
      (.error "Cannot create relation. The local key value is undefined",
        []) ∧
    hasManyAssociate owner related fk lk =
      (.error
        "Cannot associate relation. The local key value is undefined",
        []) ∧
    hasManyAssociateMany owner relatedList fk lk =
      (.error
        "Cannot associate relation. The local key value is undefined",
        []) ∧
    btmAttach owner ids lk pfk prk =
      (.error "Cannot attach relation. The local key value is undefined",
        []) ∧
    btmAttachWithPivotData owner data lk pfk prk =
      (.error
        "Cannot attach relation with pivot data. The local key value is undefined",
        []) ∧
    btmUpdatePivotData owner id pdata lk pfk prk =
      (.error "Cannot update pivot data. The local key value is undefined",
        []) ∧
    (truthyOpt (Obj.get owner.fields fk) = false →
      belongsToExec st owner fk lk = (.ok none, [])) ∧
    (truthyOpt (Obj.get related.fields lk) = false →
      belongsToAssociate owner related fk lk =
        (.error
          "Cannot associate relation. The related model primary key is undefined",
          [])) := by
  refine ⟨?_, ?_, ?_, ?_, ?_, ?_, ?_, ?_, ?_, ?_, ?_, ?_, ?_, ?_, ?_,
    ?_, ?_, ?_, ?_, ?_, ?_, ?_⟩
  · simp [hasOneExec, hfalsy]
  · simp [hasManyExec, hfalsy]
  · simp [btmExec, hfalsy]
  · simp [btmExists, hfalsy]
  · simp [btmPivotData, hfalsy]
  · simp [hasManyDissociate, hfalsy]
  · simp [hasManyDelete, hfalsy]
  · simp [btmDetach, hfalsy]
  · simp [hasOneSave, hfalsy]
  · simp [hasOneCreate, hfalsy]
  · simp [hasOneAssociate, hfalsy]
  · simp [hasManySave, hfalsy]
  · simp [hasManySaveMany, hfalsy]
  · simp [hasManyCreate, hfalsy]
  · simp [hasManyCreateMany, hfalsy]
  · simp [hasManyAssociate, hfalsy]
  · simp [hasManyAssociateMany, hfalsy]
  · simp [btmAttach, hfalsy]
  · simp [btmAttachWithPivotData, hfalsy]
  · simp [btmUpdatePivotData, hfalsy]
  · intro hfk
    simp [belongsToExec, hfk]
  · intro hrk
    simp [belongsToAssociate, hrk]

theorem c8_falsy_localKey_guards_witness :
    hasOneExec {} {} "owner_id" "_id" = (.ok none, []) ∧
    btmAttach {} [.vInt 7] "_id" "owner_id" "related_id" =
      (.error "Cannot attach relation. The local key value is undefined",
        []) := by
  have h := c8_falsy_localKey_guards {} {} {} {} {} [] [] [] [.vInt 7]
    [] (.vInt 1) [] none "owner_id" "_id" "owner_id" "related_id" "_id"
    rfl
  exact ⟨h.1, h.2.2.2.2.2.2.2.2.2.2.2.2.2.2.2.2.2.1⟩

theorem execHydrate_attrs (cls : MClass) (d : Obj) :
    (execHydrate cls d).attrs = [] := by
  unfold execHydrate
  rcases h : truthyOpt (Obj.get d "_id") with _ | _
  · simp only [h, Bool.false_eq_true, if_false]
    exact (processFromDatabase_state cls d {}).2.2.1
  · simp only [h, if_true]
    exact (processFromDatabase_state cls d {}).2.2.1

/-- **C4 (counterexample).**  The no-argument `isDirty()` of a persisted
instance iterates the keys of `$attributes`, which the base model never
populates: after hydrating a document and mutating a loaded field, the
keyed `isDirty('age')` reports true but `isDirty()` reports false, so
"returns true as soon as any field covered by the last-loaded attribute
set is mutated" fails under its intended reading. -/
theorem c4_no_arg_isDirty_counterexample :
    let cls : MClass := {}
    let m := execHydrate cls
      [("_id", .vId "aaaaaaaaaaaaaaaaaaaaaaaa"), ("age", .vInt 30)]
    let m' := { m with fields := Obj.set m.fields "age" (.vInt 31) }
    m'.isNew = false ∧
    valNeq (Obj.get m'.fields "age") (Obj.get m'.original "age") = true ∧
    isDirty m' (some "age") = true ∧
    isDirty m' none = false := by
  refine ⟨?_, ?_, ?_, ?_⟩ <;> decide

/-- **C4 (amended).**  `isDirty` behaves as follows: a new instance is
unconditionally dirty; for a persisted instance a named key is compared
against the `$original` baseline by value inequality; the no-argument
form iterates the keys of `$attributes`, which stays empty through
hydration (`execHydrate`, `createModelFromResult`), `refresh()` and
`save()` — the base model never writes it — so the no-argument
`isDirty()` of a persisted instance is false even after mutations. -/
theorem c4_dirty_tracking (cls : MClass) (st : MStore) (m : ModelState)
    (k : Option String) (key : String) (v : MValue) (d : Obj)
    (p : ModelState × List Ev) (r : ModelState × MStore × List Ev)
    (hkey : ¬ key = "") :
    (m.isNew = true → isDirty m k = true) ∧
    (m.isNew = false → isDirty m (some key) =
      valNeq (Obj.get m.fields key) (Obj.get m.original key)) ∧
    (m.isNew = false → m.attrs = [] → isDirty m none = false) ∧
    (m.isNew = false → m.attrs = [] →
      isDirty { m with fields := Obj.set m.fields key v } none = false) ∧
    (execHydrate cls d).attrs = [] ∧
    (createModelFromResult cls d).attrs = [] ∧
    (refresh cls st m = .ok p → p.1.attrs = m.attrs) ∧
    (save cls st m = .ok r → r.1.attrs = m.attrs) := by
  refine ⟨?_, ?_, ?_, ?_, ?_, ?_, ?_, ?_⟩
  · intro hn
    simp [isDirty, hn]
  · intro hn
    have hk : (key == "") = false := by
      simp [hkey]
    simp [isDirty, hn, hk]
  · intro hn ha
    simp [isDirty, hn, ha]
  · intro hn ha
    simp [isDirty, hn, ha]
  · exact execHydrate_attrs cls d
  · exact (processFromDatabase_state cls d {}).2.2.1
  · intro h
    exact ((refresh_ok_shape h).2.2.2).elim
      (fun hs => hs.2.2.2.1) (fun hs => hs.2.2)
  · intro h
    exact (save_ok_shape h).1

theorem c4_dirty_tracking_witness :
    isDirty
      { fields := [("age", MValue.vInt 31)], isNew := false,
        pkValue := some (.vId "aaaaaaaaaaaaaaaaaaaaaaaa"),
        original := [("age", MValue.vInt 30)], attrs := [] }
      (some "age") =
      valNeq (some (MValue.vInt 31)) (some (MValue.vInt 30)) ∧
    isDirty
      { fields := [("age", MValue.vInt 31)], isNew := false,
        pkValue := some (.vId "aaaaaaaaaaaaaaaaaaaaaaaa"),
        original := [("age", MValue.vInt 30)], attrs := [] }
      none = false := by
  have h := c4_dirty_tracking {} {}
    { fields := [("age", MValue.vInt 31)], isNew := false,
      pkValue := some (.vId "aaaaaaaaaaaaaaaaaaaaaaaa"),
      original := [("age", MValue.vInt 30)], attrs := [] }
    none "age" (.vInt 0) [] ({}, []) ({}, {}, []) (by decide)
  exact ⟨h.2.1 rfl, h.2.2.1 rfl rfl⟩

/-- **C7 (counterexample).**  The invariant "persisted instances always
have a primary-key value" is not preserved by finder hydration: with a
custom primary key, `findBy` on a document that lacks the primary-key
field yields an instance with `$isNew = false` and
`$primaryKeyValue = undefined`. -/
theorem c7_persisted_without_pk_counterexample :
    let cls : MClass := { primaryKey := "uuid" }
    let st : MStore := { docs := [[("name", .vStr "a")]], nextId := 0 }
    let mr := createModelFromResult cls [("name", .vStr "a")]
    (findByModel cls st "name" (.vStr "a")).1 = some mr ∧
    mr.isNew = false ∧
    mr.pkValue = none ∧
    ¬ ModelInv mr := by
  intro cls st mr
  refine ⟨rfl, rfl, rfl, ?_⟩
  intro hinv
  rcases hinv.2 rfl with ⟨v, hv⟩
  rw [show mr.pkValue = none from rfl] at hv
  exact Option.noConfusion hv

/-- **C7 (amended).**  With the default `_id` primary key and a store
whose documents all carry a truthy `_id`, the state-machine invariant
"a new instance has no primary-key value, a persisted instance has one"
holds for a fresh instance and is preserved by `save()`, `refresh()`,
`find`/`findBy` hydration and the query builder's `exec` hydration
(while `delete()` does not touch the instance state); inserting a
document without `_id` preserves the store invariant. -/
theorem c7_pk_invariant (cls : MClass) (st : MStore) (m mm : ModelState)
    (r : ModelState × MStore × List Ev) (p : ModelState × List Ev)
    (k : String) (v idv : MValue) (d : Obj)
    (hpk : cls.primaryKey = "_id") (hstore : StoreInvId st) :
    ModelInv {} ∧
    (save cls st m = .ok r → ModelInv r.1) ∧
    (refresh cls st m = .ok p → ModelInv p.1) ∧
    ((findModel cls st idv).1 = some mm → ModelInv mm) ∧
    ((findByModel cls st k v).1 = some mm → ModelInv mm) ∧
    (d ∈ st.docs → ModelInv (execHydrate cls d)) ∧
    (Obj.get d "_id" = none → StoreInvId (insertOne st d).2) := by
  have hfromResult : ∀ rdoc : Obj, rdoc ∈ st.docs →
      ModelInv (createModelFromResult cls rdoc) := by
    intro rdoc hmem
    have htr := hstore rdoc hmem
    rcases hg : Obj.get rdoc "_id" with _ | w
    · rw [hg] at htr
      simp [truthyOpt] at htr
    · refine ⟨fun ht => Bool.noConfusion ht, fun _ => ⟨w, ?_⟩⟩
      have hproj : (createModelFromResult cls rdoc).pkValue =
          Obj.get rdoc cls.primaryKey := rfl
      rw [hproj, hpk, hg]
  have hfirstMem : ∀ (key : String) (val : MValue) (rdoc : Obj),
      firstKV st key val = some rdoc → rdoc ∈ st.docs := by
    intro key val rdoc hf
    exact List.mem_of_find?_eq_some hf
  refine ⟨?_, ?_, ?_, ?_, ?_, ?_, ?_⟩
  · exact ⟨fun _ => rfl, fun h => Bool.noConfusion h⟩
  · intro h
    exact (save_ok_shape h).2
  · intro h
    obtain ⟨hn, ht, _, hshape⟩ := refresh_ok_shape h
    rcases hshape with ⟨hi, hp, _, _, _⟩ | ⟨hi, hp, _⟩
    · exact ⟨fun _ => hp, fun hf => absurd (hi.symm.trans hf) (by simp)⟩
    · refine ⟨fun htr => absurd (hi.symm.trans htr) (by simp),
        fun _ => ?_⟩
      rcases hmv : m.pkValue with _ | w
      · rw [hmv] at ht
        simp [truthyOpt] at ht
      · exact ⟨w, hp.trans hmv⟩
  · intro h
    unfold findModel at h
    rcases hf : firstKV st cls.primaryKey idv with _ | rdoc
    · rw [hf] at h
      simp at h
    · rw [hf] at h
      simp only [Option.some_inj] at h
      rw [← h]
      exact hfromResult rdoc (hfirstMem _ _ _ hf)
  · intro h
    unfold findByModel at h
    rcases hf : firstKV st k v with _ | rdoc
    · rw [hf] at h
      simp at h
    · rw [hf] at h
      simp only [Option.some_inj] at h
      rw [← h]
      exact hfromResult rdoc (hfirstMem _ _ _ hf)
  · intro hmem
    have htr := hstore d hmem
    rcases hg : Obj.get d "_id" with _ | w
    · rw [hg] at htr
      simp [truthyOpt] at htr
    · refine ⟨fun ht => ?_, fun _ => ⟨w, ?_⟩⟩
      · exact absurd ht (by
          simp only [execHydrate, htr, if_true]
          simp)
      · rw [hg] at htr
        simp only [execHydrate, hg, htr, if_true]
  · intro hnone d' hmem
    unfold insertOne at hmem
    rw [hnone] at hmem
    simp only [List.mem_append, List.mem_singleton] at hmem
    rcases hmem with hin | heq
    · exact hstore d' hin
    · rw [heq, Obj.get_set_self]
      rfl

theorem c7_pk_invariant_witness :
    StoreInvId
      { docs := [[("_id", MValue.vId "aaaaaaaaaaaaaaaaaaaaaaaa"),
          ("age", MValue.vInt 30)]], nextId := 0 } ∧
    ModelInv (execHydrate {}
      [("_id", MValue.vId "aaaaaaaaaaaaaaaaaaaaaaaa"),
        ("age", MValue.vInt 30)]) := by
  have hstore : StoreInvId
      { docs := [[("_id", MValue.vId "aaaaaaaaaaaaaaaaaaaaaaaa"),
          ("age", MValue.vInt 30)]], nextId := 0 } := by
    intro d hd
    simp only [List.mem_singleton] at hd
    rw [hd]
    rfl
  refine ⟨hstore, ?_⟩
  exact (c7_pk_invariant {}
    { docs := [[("_id", MValue.vId "aaaaaaaaaaaaaaaaaaaaaaaa"),
        ("age", MValue.vInt 30)]], nextId := 0 }
    {} {} ({}, {}, []) ({}, []) "x" .vNull .vNull
    [("_id", MValue.vId "aaaaaaaaaaaaaaaaaaaaaaaa"),
      ("age", MValue.vInt 30)]
    rfl hstore).2.2.2.2.2.1 (List.mem_singleton.mpr rfl)

/-- **C3.**  The `serialize: false` half of the claim holds: such a
column is absent from `serialize()`/`toJSON()` output but present in
`toObject()`.  The `serializeAs` half is broken in the code: the
`column()` decorator stores only `columnName`/`isPrimary`/`serialize`/
`prepare`/`consume`, so the stored definition's `serializeAs` is always
undefined and `serialize()` emits the value under the property name —
never under the requested name `x` — whereas the spec-modelled decorator
(`specColumnDecorator`, which keeps `serializeAs` as the docs and the
serialization tests assume) renames it. -/
theorem c3_serializeAs_dropped (p x : String) (v : MValue)
    (opts opts₂ : ColOptions) (hpx : ¬ p = x)
    (hreq : opts.serializeAs = some (some x))
    (hser : ¬ opts.serialize = some false)
    (hser₂ : opts₂.serialize = some false)
    (hcn₂ : opts₂.columnName = none) (hprep₂ : opts₂.prepare = none) :
    (columnDecorator p opts).serializeAs = none ∧
    Obj.get (serialize { columns := [(p, columnDecorator p opts)] }
      { fields := [(p, v)], isNew := false }) p = some v ∧
    Obj.get (serialize { columns := [(p, columnDecorator p opts)] }
      { fields := [(p, v)], isNew := false }) x = none ∧
    (specColumnDecorator p opts).serializeAs = some (some x) ∧
    Obj.get (serialize { columns := [(p, specColumnDecorator p opts)] }
      { fields := [(p, v)], isNew := false }) x = some v ∧
    Obj.get (serialize { columns := [(p, specColumnDecorator p opts)] }
      { fields := [(p, v)], isNew := false }) p = none ∧
    serialize { columns := [(p, columnDecorator p opts₂)] }
      { fields := [(p, v)], isNew := false } = [] ∧
    Obj.get (toObject { columns := [(p, columnDecorator p opts₂)] }
      { fields := [(p, v)], isNew := false }) p = some v := by
  have hsf : (opts.serialize == some false) = false := by
    simp [hser]
  have hxp : (x == p) = false := by
    simp
    intro he
    exact hpx he.symm
  have hpxb : (p == x) = false := by
    simp [hpx]
  refine ⟨rfl, ?_, ?_, ?_, ?_, ?_, ?_, ?_⟩
  · simp [serialize, getA, columnDecorator, hsf, Obj.get]
  · simp [serialize, getA, columnDecorator, hsf, Obj.get, hpxb]
  · simp [specColumnDecorator, hreq]
  · simp [serialize, getA, specColumnDecorator, columnDecorator, hsf,
      hreq, Obj.get]
  · simp [serialize, getA, specColumnDecorator, columnDecorator, hsf,
      hreq, Obj.get, hxp]
  · simp [serialize, getA, columnDecorator, hser₂]
  · simp [toObject, getA, columnDecorator, hcn₂, hprep₂, Obj.get]

theorem c3_serializeAs_dropped_witness :
    Obj.get (serialize
      { columns := [("secretName",
          columnDecorator "secretName"
            { serializeAs := some (some "name") })] }
      { fields := [("secretName", MValue.vStr "Ada")], isNew := false })
      "secretName" = some (MValue.vStr "Ada") ∧
    Obj.get (serialize
      { columns := [("secretName",
          columnDecorator "secretName"
            { serializeAs := some (some "name") })] }
      { fields := [("secretName", MValue.vStr "Ada")], isNew := false })
      "name" = none ∧
    Obj.get (serialize
      { columns := [("secretName",
          specColumnDecorator "secretName"
            { serializeAs := some (some "name") })] }
      { fields := [("secretName", MValue.vStr "Ada")], isNew := false })
      "name" = some (MValue.vStr "Ada") := by
  have h := c3_serializeAs_dropped "secretName" "name" (.vStr "Ada")
    { serializeAs := some (some "name") } { serialize := some false }
    (by decide) rfl (by simp) rfl rfl rfl
  exact ⟨h.2.1, h.2.2.1, h.2.2.2.2.1⟩

/-- **C1.**  `save()` fires `beforeSave` then `beforeCreate` (create) or
`beforeUpdate` (update) before the store write and refresh — but on the
after side the source runs `afterSave` *before* `afterCreate`/
`afterUpdate` (base_model.ts lines 345–358), so the recorded order is
`[beforeSave, beforeCreate, afterSave, afterCreate]` (resp.
`[..., afterSave, afterUpdate]`), not the claimed/documented
`[beforeSave, beforeCreate, afterCreate, afterSave]`. -/
theorem c1_hook_order (cls : MClass) (st st' : MStore)
    (m m' : ModelState)
    (h1 : cls.hasBeforeSave = true) (h2 : cls.hasBeforeCreate = true)
    (h3 : cls.hasAfterCreate = true) (h4 : cls.hasAfterSave = true)
    (h5 : cls.hasBeforeUpdate = true) (h6 : cls.hasAfterUpdate = true)
    (hnew : m.isNew = true)
    (hid : (insertOne st (toObject cls m)).1.truthy = true)
    (hold : m'.isNew = false) (hpk : truthyOpt m'.pkValue = true) :
    (∃ r, save cls st m = .ok r ∧
      hookNames r.2.2 =
        ["beforeSave", "beforeCreate", "afterSave", "afterCreate"]) ∧
    (∃ r, save cls st' m' = .ok r ∧
      hookNames r.2.2 =
        ["beforeSave", "beforeUpdate", "afterSave", "afterUpdate"]) ∧
    (["beforeSave", "beforeCreate", "afterSave", "afterCreate"] ≠
      (["beforeSave", "beforeCreate", "afterCreate", "afterSave"] :
        List String)) := by
  refine ⟨?_, ?_, by decide⟩
  · obtain ⟨p, hp, hev⟩ := refresh_total cls
      (insertOne st (toObject cls m)).2
      { m with
        pkValue := some (insertOne st (toObject cls m)).1
        isNew := false }
      rfl hid
    have hs := save_create_run cls st m p.1 p.2 hnew hp
    refine ⟨_, hs, ?_⟩
    rw [hev]
    simp [hookNames_append, hookEv, hookNames, h1, h2, h3, h4]
  · obtain ⟨p, hp, hev⟩ := refresh_total cls
      (updateSetKV st' cls.primaryKey (m'.pkValue.getD .vNull)
        (toObject cls m')) m' hold hpk
    have hs := save_update_run cls st' m' p.1 p.2 hold hpk hp
    refine ⟨_, hs, ?_⟩
    rw [hev]
    simp [hookNames_append, hookEv, hookNames, h1, h4, h5, h6]

theorem c1_hook_order_witness :
    ∃ r, save
      { hasBeforeSave := true, hasBeforeCreate := true,
        hasBeforeUpdate := true, hasAfterCreate := true,
        hasAfterUpdate := true, hasAfterSave := true } {} {} = .ok r ∧
      hookNames r.2.2 =
        ["beforeSave", "beforeCreate", "afterSave", "afterCreate"] :=
  (c1_hook_order
    { hasBeforeSave := true, hasBeforeCreate := true,
      hasBeforeUpdate := true, hasAfterCreate := true,
      hasAfterUpdate := true, hasAfterSave := true } {} {} {}
    { fields := [], isNew := false,
      pkValue := some (.vId "aaaaaaaaaaaaaaaaaaaaaaaa"), original := [],
      attrs := [] }
    rfl rfl rfl rfl rfl rfl rfl rfl rfl rfl).1
